import Mathlib

/-!
Verification of `.github/scripts/process_issue.py` (leaderboard updater).

The Python script is shallowly embedded here:

* `parse_issue_body` models the six `re.search` calls (patterns of the form
  `### <Heading>\s*\n\s*(.+?)(?=\n###|\n\n###|$)` compiled with
  `re.DOTALL | re.MULTILINE`).  The backtracking semantics of this fixed
  pattern shape is modelled exactly: the leftmost start position wins, the
  group `\s*\n\s*` picks the last newline of the maximal whitespace run
  (backtracking greedily), and the lazy group `(.+?)` stops at the first
  position where the lookahead succeeds.  Because `re.MULTILINE` is set,
  the `$` inside the lookahead matches before every newline, so the
  lookahead holds exactly at end of input or just before a `\n`.
* `get_accuracy_value` models the rank-key function; Python floats are
  idealised as exact rationals (`ℚ`).  `pyFloat` models `float(...)` on
  finite decimal literals (sign, digits, decimal point, exponent); the
  non-finite inputs `inf`/`nan` and PEP-515 underscores are outside the
  rational model.
* the store is a `List Submission`; `update_submissions`, `setVerified`
  and the filter in `remove_submission` model the three mutations, and
  `List.mergeSort` with a `≤`-on-keys comparison models Python's stable
  `list.sort(key=..., reverse=True)`.
* persistence is modelled byte-exactly: `printStore` produces the exact
  character sequence `json.dump(data, f, indent=2)` writes (including
  `ensure_ascii` escaping and surrogate pairs), and `parseStore` models
  `json.load` by a general JSON parser followed by the field accesses the
  script performs on each submission dict.
-/

/-- Python whitespace as used by `str.strip()` and the regex class `\s`
(ASCII part: space, tab, newline, carriage return, vertical tab, form feed). -/
def pyWs (c : Char) : Bool :=
  c == ' ' || c == '\t' || c == '\n' || c == '\r' || c == '\x0b' || c == '\x0c'

/-- Model of Python `str.strip()`: drop leading and trailing whitespace. -/
def pyStrip (l : List Char) : List Char :=
  ((l.dropWhile pyWs).reverse.dropWhile pyWs).reverse

/-- Length of the maximal whitespace run at the front of `l`
(the maximal text the greedy `\s*` can consume). -/
def wsRun : List Char → Nat
  | [] => 0
  | c :: r => if pyWs c then wsRun r + 1 else 0

/-- Does `pat` occur literally at the front of `l`? -/
def headMatches : List Char → List Char → Bool
  | [], _ => true
  | _ :: _, [] => false
  | p :: ps, c :: cs => p == c && headMatches ps cs

/-- Backtracking choice for `\s*\n\s*(.+?)` right after the heading literal:
the first `\s*` is greedy, so the engine commits to the largest `a` such
that the `a`-th character is the `\n` (necessarily inside the whitespace
run) and at least one character is left for `(.+?)` afterwards. -/
def bestA (l : List Char) : Option Nat :=
  (List.range (wsRun l + 1)).reverse.find?
    (fun a => decide (l.get? a = some '\n') && decide (a + 1 < l.length))

/-- Model of the capture group for the fixed pattern shape
`\s*\n\s*(.+?)(?=\n###|\n\n###|$)` with `re.DOTALL | re.MULTILINE`,
applied to the text `l` that follows the heading literal.  The second
`\s*` is greedy but backtracks just enough to leave one character for
`(.+?)`; the lazy `(.+?)` then extends to the first position where the
lookahead holds, i.e. the first end of line (since `$` is multiline,
it subsumes the `\n###` alternatives). -/
def captureAt (l : List Char) : Option (List Char) :=
  match bestA l with
  | none => none
  | some a =>
    let p := a + 1 + min (wsRun (l.drop (a + 1))) (l.length - (a + 2))
    let m := l.drop p
    let q := match (m.drop 1).findIdx? (fun c => c == '\n') with
             | some k => 1 + k
             | none => m.length
    some (m.take q)

/-- One attempt of the pattern at the current position. -/
def matchHere (pat l : List Char) : Option (List Char) :=
  if headMatches pat l then captureAt (l.drop pat.length) else none

/-- Model of `re.search` for the fixed pattern shape: try every start
position from the left and return the first successful capture. -/
def pySearch (pat : List Char) : List Char → Option (List Char)
  | [] => matchHere pat []
  | c :: r => (matchHere pat (c :: r)) <|> pySearch pat r

/-- The sentinel "no answer" tokens the parser skips (lower-cased). -/
def sentinelTokens : List (List Char) :=
  ["n/a".data, "_no response_".data, "no response".data]

/-- ASCII lower-casing, modelling `str.lower()` on the ASCII inputs used here. -/
def lowerChars (l : List Char) : List Char := l.map Char.toLower

/-- Extraction of one field: search for the heading pattern, strip the
captured value, and drop it when empty or equal to a sentinel token. -/
def extractField (heading : String) (body : String) : Option String :=
  match pySearch heading.data body.data with
  | none => none
  | some cap =>
    let v := pyStrip cap
    if v = [] then none
    else if sentinelTokens.contains (lowerChars v) then none
    else some (String.mk v)

/-- Result of `parse_issue_body`: the partial mapping from field names to
extracted values (`none` models absence of the key in the Python dict). -/
structure ParsedData where
  student_name : Option String
  model_length : Option String
  accuracy : Option String
  tensorboard_link : Option String
  improvement_description : Option String
  gpu_hours : Option String
deriving DecidableEq

/-- Model of `parse_issue_body`: one `re.search` per recognised field. -/
def parse_issue_body (body : String) : ParsedData :=
  { student_name := extractField "### Student Name" body
    model_length := extractField "### Model Length" body
    accuracy := extractField "### Accuracy" body
    tensorboard_link := extractField "### TensorBoard Link" body
    improvement_description := extractField "### Improvement Description" body
    gpu_hours := extractField "### GPU Hours" body }

/-- A submission record, mirroring the dict built in `update_leaderboard`. -/
structure Submission where
  issue_number : Int
  student_name : String
  model_length : String
  accuracy : String
  tensorboard_link : String
  improvement_description : String
  gpu_hours : String
  issue_url : String
  submitted_at : String
  verified : Bool
deriving DecidableEq

/-- Fold a digit string into a natural number. -/
def digitsToNat (l : List Char) : Nat :=
  l.foldl (fun a c => a * 10 + (c.toNat - 48)) 0

/-- Value of integer digits `ip` and fraction digits `fp` as a rational. -/
def decValue (ip fp : List Char) : ℚ :=
  Rat.divInt (digitsToNat (ip ++ fp) : Int) ((10 : Int) ^ fp.length)

/-- Ten to an integer power, as a rational. -/
def qpow10 (e : Int) : ℚ :=
  if 0 ≤ e then ((10 : Int) ^ e.toNat : Int) else Rat.divInt 1 ((10 : Int) ^ (-e).toNat)

/-- Exponent digits (after an optional sign). -/
def pyExpNat (l : List Char) : Option Int :=
  let ds := l.takeWhile Char.isDigit
  if ds = [] then none
  else if l.drop ds.length ≠ [] then none
  else some (digitsToNat ds : Int)

/-- Optionally signed exponent digits. -/
def pyExpSigned : List Char → Option Int
  | '+' :: r => pyExpNat r
  | '-' :: r => (pyExpNat r).map (fun n => -n)
  | r => pyExpNat r

/-- The tail of a float literal: either empty or an exponent part. -/
def pyExpTail : List Char → Option Int
  | [] => some 0
  | 'e' :: r => pyExpSigned r
  | 'E' :: r => pyExpSigned r
  | _ => none

/-- Unsigned mantissa with optional fraction, then an optional exponent. -/
def pyFloatBody (l : List Char) : Option ℚ :=
  let ip := l.takeWhile Char.isDigit
  match l.drop ip.length with
  | '.' :: r2 =>
    let fp := r2.takeWhile Char.isDigit
    if ip = [] ∧ fp = [] then none
    else (pyExpTail (r2.drop fp.length)).map (fun e => decValue ip fp * qpow10 e)
  | r1 =>
    if ip = [] then none
    else (pyExpTail r1).map (fun e => decValue ip [] * qpow10 e)

/-- Model of Python `float(...)` on finite decimal literals, as an exact
rational.  `float` itself strips surrounding whitespace, accepts an
optional sign, digits with an optional decimal point, and an optional
decimal exponent.  (`inf`/`nan` and PEP-515 digit underscores are outside
this rational model.) -/
def pyFloat (l : List Char) : Option ℚ :=
  match pyStrip l with
  | '+' :: r => pyFloatBody r
  | '-' :: r => (pyFloatBody r).map (fun v => -v)
  | r => pyFloatBody r

/-- Model of the sort key `get_accuracy_value`: `-1` for the exact sentinel
`"N/A"`, otherwise strip whitespace, remove every `%`, parse as a float
(`-1` on failure), and divide values greater than `1` by `100`.
The function is pure: it only reads `sub.accuracy` and never changes it. -/
def get_accuracy_value (sub : Submission) : ℚ :=
  let acc := sub.accuracy
  if acc = "N/A" then -1
  else
    let acc_str := (pyStrip acc.data).filter (fun c => !(c == '%'))
    match pyFloat acc_str with
    | some val => if 1 < val then val / 100 else val
    | none => -1

/-- Comparison handed to the stable sort: `a` may come before `b` iff the
rank key of `a` is at least that of `b` (descending, ties keep order). -/
def rankLe (a b : Submission) : Bool :=
  decide (get_accuracy_value b ≤ get_accuracy_value a)

/-- The candidate submission built in `update_leaderboard` from the parsed
body, with the per-field defaults of the script; `now` stands for the
`datetime.utcnow().isoformat()` timestamp taken at mutation time.  The
`issue_title` argument of `update_leaderboard` is not used in the dict. -/
def buildSubmission (issue_number : Int) (issue_author issue_body issue_url now : String) :
    Submission :=
  let d := parse_issue_body issue_body
  { issue_number := issue_number
    student_name := d.student_name.getD issue_author
    model_length := d.model_length.getD "N/A"
    accuracy := d.accuracy.getD "N/A"
    tensorboard_link := d.tensorboard_link.getD ""
    improvement_description := d.improvement_description.getD ""
    gpu_hours := d.gpu_hours.getD "N/A"
    issue_url := issue_url
    submitted_at := now
    verified := false }

/-- Replace the first submission with the given issue number (carrying its
`verified` flag into the replacement, as the script does), or append the
candidate at the end when no such submission exists. -/
def insertSub (n : Int) (new : Submission) : List Submission → List Submission
  | [] => [new]
  | s :: rest =>
    if s.issue_number = n then { new with verified := s.verified } :: rest
    else s :: insertSub n new rest

/-- The in-memory effect of `update_leaderboard` on the submissions list:
merge the candidate and re-sort by descending rank key with Python's
stable sort. -/
def update_submissions (issue_number : Int)
    (issue_title issue_author issue_body issue_url now : String)
    (subs : List Submission) : List Submission :=
  (insertSub issue_number (buildSubmission issue_number issue_author issue_body issue_url now)
    subs).mergeSort rankLe

/-- Set `verified := true` on the first submission with the given issue
number; `none` when there is none (the loop in `mark_verified` only ever
touches the first match). -/
def setVerified (n : Int) : List Submission → Option (List Submission)
  | [] => none
  | s :: rest =>
    if s.issue_number = n then some ({ s with verified := true } :: rest)
    else (setVerified n rest).map (fun l => s :: l)

/-! ## Persistence: the exact bytes of `json.dump(..., indent=2)` -/

/-- Indentation: `n` spaces. -/
def sp (n : Nat) : List Char := List.replicate n ' '

/-- Decimal digit character. -/
def digChar (d : Nat) : Char := Char.ofNat (48 + d)

/-- Lower-case hexadecimal digit character, as `"\\u%04x" % n` produces. -/
def hexDig (d : Nat) : Char := if d < 10 then Char.ofNat (48 + d) else Char.ofNat (87 + d)

/-- Four lower-case hex digits. -/
def hex4 (n : Nat) : List Char :=
  [hexDig (n / 4096 % 16), hexDig (n / 256 % 16), hexDig (n / 16 % 16), hexDig (n % 16)]

/-- Escaping of one character in a JSON string, following `json.dump` with
the default `ensure_ascii=True`: short escapes for the common control
characters, `\uXXXX` for everything outside `0x20..0x7e`, and surrogate
pairs for astral characters. -/
def encChar (c : Char) : List Char :=
  if c = '"' then ['\\', '"']
  else if c = '\\' then ['\\', '\\']
  else if c = '\n' then ['\\', 'n']
  else if c = '\t' then ['\\', 't']
  else if c = '\r' then ['\\', 'r']
  else if c = '\x08' then ['\\', 'b']
  else if c = '\x0c' then ['\\', 'f']
  else if c.toNat < 0x20 ∨ 0x7e < c.toNat then
    if c.toNat < 0x10000 then '\\' :: 'u' :: hex4 c.toNat
    else
      let v := c.toNat - 0x10000
      '\\' :: 'u' :: hex4 (0xd800 + v / 0x400) ++ '\\' :: 'u' :: hex4 (0xdc00 + v % 0x400)
  else [c]

/-- Body of a JSON-encoded string (without the surrounding quotes). -/
def encStrBody : List Char → List Char
  | [] => []
  | c :: r => encChar c ++ encStrBody r

/-- Decimal print of a natural number, as `str(n)` produces. -/
def printNat (n : Nat) : List Char :=
  if n = 0 then ['0'] else (Nat.digits 10 n).reverse.map digChar

/-- Decimal print of an integer, as `str(n)` produces. -/
def printInt (n : Int) : List Char :=
  if n < 0 then '-' :: printNat (-n).toNat else printNat n.toNat

/-- JSON booleans. -/
def printBool : Bool → List Char
  | true => ['t', 'r', 'u', 'e']
  | false => ['f', 'a', 'l', 's', 'e']

def kIssueNumber : List Char := "issue_number".data
def kStudentName : List Char := "student_name".data
def kModelLength : List Char := "model_length".data
def kAccuracy : List Char := "accuracy".data
def kTensorboardLink : List Char := "tensorboard_link".data
def kImprovementDescription : List Char := "improvement_description".data
def kGpuHours : List Char := "gpu_hours".data
def kIssueUrl : List Char := "issue_url".data
def kSubmittedAt : List Char := "submitted_at".data
def kVerified : List Char := "verified".data
def kSubmissions : List Char := "submissions".data

/-- One object member with an integer value: newline, indentation,
quoted key, `": "`, the value, then the continuation `rest`. -/
def memInt (ind : Nat) (k : List Char) (n : Int) (rest : List Char) : List Char :=
  '\n' :: (sp ind ++ ('"' :: (k ++ ('"' :: ':' :: ' ' :: (printInt n ++ rest)))))

/-- One object member with a string value. -/
def memStr (ind : Nat) (k : List Char) (s : List Char) (rest : List Char) : List Char :=
  '\n' :: (sp ind ++ ('"' :: (k ++ ('"' :: ':' :: ' ' ::
    ('"' :: (encStrBody s ++ ('"' :: rest)))))))

/-- One object member with a boolean value. -/
def memBool (ind : Nat) (k : List Char) (b : Bool) (rest : List Char) : List Char :=
  '\n' :: (sp ind ++ ('"' :: (k ++ ('"' :: ':' :: ' ' :: (printBool b ++ rest)))))

/-- The `json.dump(..., indent=2)` print of one submission dict, with the
keys in the script's insertion order; `ind` is the indentation of the
opening brace's line content. -/
def printSub (ind : Nat) (s : Submission) : List Char :=
  '\x7b' :: memInt (ind + 2) kIssueNumber s.issue_number (',' ::
    memStr (ind + 2) kStudentName s.student_name.data (',' ::
    memStr (ind + 2) kModelLength s.model_length.data (',' ::
    memStr (ind + 2) kAccuracy s.accuracy.data (',' ::
    memStr (ind + 2) kTensorboardLink s.tensorboard_link.data (',' ::
    memStr (ind + 2) kImprovementDescription s.improvement_description.data (',' ::
    memStr (ind + 2) kGpuHours s.gpu_hours.data (',' ::
    memStr (ind + 2) kIssueUrl s.issue_url.data (',' ::
    memStr (ind + 2) kSubmittedAt s.submitted_at.data (',' ::
    memBool (ind + 2) kVerified s.verified ('\n' :: (sp ind ++ ['\x7d'])))))))))))

/-- The items of a non-empty submissions array, each at indentation 4,
separated by `",\n"`, closed by `"\n  ]"`. -/
def printItems : List Submission → List Char
  | [] => []
  | [s] => printSub 4 s ++ ('\n' :: (sp 2 ++ [']']))
  | s :: ss => printSub 4 s ++ (',' :: '\n' :: (sp 4 ++ printItems ss))

/-- The submissions array (`json.dump` prints empty containers inline). -/
def printArr (ss : List Submission) : List Char :=
  match ss with
  | [] => ['[', ']']
  | _ => '[' :: '\n' :: (sp 4 ++ printItems ss)

/-- The exact file content `save_leaderboard` writes:
`{"submissions": [...]}` rendered with `indent=2`. -/
def printStore (ss : List Submission) : List Char :=
  '\x7b' :: '\n' :: (sp 2 ++ ('"' :: (kSubmissions ++
    ('"' :: ':' :: ' ' :: (printArr ss ++ ('\n' :: ['\x7d']))))))

/-! ## A JSON value parser modelling `json.load` -/

/-- JSON documents (numbers restricted to the integers, the only numeric
shape the script ever writes). -/
inductive Json where
  | null : Json
  | bool (b : Bool) : Json
  | num (n : Int) : Json
  | str (s : List Char) : Json
  | arr (elems : List Json) : Json
  | obj (members : List (List Char × Json)) : Json

/-- JSON inter-token whitespace. -/
def jsonWs (c : Char) : Bool := c == ' ' || c == '\t' || c == '\n' || c == '\r'

/-- Skip JSON whitespace. -/
def skipWs : List Char → List Char
  | [] => []
  | c :: r => if jsonWs c then skipWs r else c :: r

/-- Value of one hexadecimal digit (both cases, as `json.load` accepts). -/
def hexVal (c : Char) : Option Nat :=
  if '0' ≤ c ∧ c ≤ '9' then some (c.toNat - 48)
  else if 'a' ≤ c ∧ c ≤ 'f' then some (c.toNat - 87)
  else if 'A' ≤ c ∧ c ≤ 'F' then some (c.toNat - 55)
  else none

/-- Value of a 4-digit hexadecimal escape. -/
def hex4Val (a b c d : Char) : Option Nat :=
  match hexVal a, hexVal b, hexVal c, hexVal d with
  | some x1, some x2, some x3, some x4 => some (x1 * 4096 + x2 * 256 + x3 * 16 + x4)
  | _, _, _, _ => none

/-- One-character escape shortcuts of the JSON grammar. -/
def escShort (e : Char) : Option Char :=
  if e = '"' then some '"'
  else if e = '\\' then some '\\'
  else if e = '/' then some '/'
  else if e = 'b' then some '\x08'
  else if e = 'f' then some '\x0c'
  else if e = 'n' then some '\n'
  else if e = 'r' then some '\r'
  else if e = 't' then some '\t'
  else none

/-- A `\uXXXX` escape that must denote a low surrogate (the second half
of a surrogate pair). -/
def lowSurrogate : List Char → Option (Nat × List Char)
  | b1 :: u1 :: a :: b :: c :: d :: r =>
    if b1 = '\\' ∧ u1 = 'u' then
      (hex4Val a b c d).bind (fun w => if 0xdc00 ≤ w ∧ w < 0xe000 then some (w, r) else none)
    else none
  | _ => none

/-- The text after a `\u` escape: four hex digits, recombining surrogate
pairs into one scalar value.  Unpaired surrogates (which Lean's `Char`
cannot carry, and which the printer never emits) make the parse fail. -/
def uEscape : List Char → Option (Char × List Char)
  | a :: b :: c :: d :: r =>
    (hex4Val a b c d).bind (fun v =>
      if 0xd800 ≤ v ∧ v < 0xdc00 then
        (lowSurrogate r).map (fun p =>
          (Char.ofNat (0x10000 + (v - 0xd800) * 0x400 + (p.1 - 0xdc00)), p.2))
      else if 0xdc00 ≤ v ∧ v < 0xe000 then none
      else some (Char.ofNat v, r))
  | _ => none

/-- Strict JSON string scanning after the opening quote: raw characters up
to the closing quote (control characters rejected, as in strict mode),
backslash escapes, and `\uXXXX` with surrogate-pair recombination.  The
fuel only needs to exceed the number of decoded characters; every step
consumes at least one input character. -/
def parseStrBody : Nat → List Char → Option (List Char × List Char)
  | 0, _ => none
  | _ + 1, [] => none
  | fuel + 1, c :: r =>
    if c = '"' then some ([], r)
    else if c = '\\' then
      match r with
      | [] => none
      | e :: r2 =>
        if e = 'u' then
          (uEscape r2).bind (fun q => (parseStrBody fuel q.2).map (fun p => (q.1 :: p.1, p.2)))
        else
          (escShort e).bind (fun ch => (parseStrBody fuel r2).map (fun p => (ch :: p.1, p.2)))
    else if c.toNat < 0x20 then none
    else (parseStrBody fuel r).map (fun p => (c :: p.1, p.2))

/-- Canonical decimal run: non-empty digits, no redundant leading zero,
and not followed by a fraction or exponent (the script never writes
non-integer numbers, so the parser covers the integer grammar of JSON). -/
def parseNatCanon (l : List Char) : Option (Nat × List Char) :=
  let ds := l.takeWhile Char.isDigit
  let rest := l.drop ds.length
  if ds = [] then none
  else if ds.length > 1 ∧ ds.headD ' ' = '0' then none
  else
    match rest with
    | c :: _ => if c = '.' ∨ c = 'e' ∨ c = 'E' then none else some (digitsToNat ds, rest)
    | [] => some (digitsToNat ds, [])

/-- A JSON integer: optional minus sign, then a canonical digit run. -/
def parseNumber (l : List Char) : Option (Int × List Char) :=
  match l with
  | [] => none
  | c :: r =>
    if c = '-' then (parseNatCanon r).map (fun p => (-(p.1 : Int), p.2))
    else (parseNatCanon (c :: r)).map (fun p => ((p.1 : Int), p.2))

mutual

/-- Recursive-descent JSON value parser (`fuel` bounds the recursion
depth; every recursive step consumes input, so `length + 1` fuel is
always enough, which is what `parseJsonDoc` supplies). -/
def parseVal : Nat → List Char → Option (Json × List Char)
  | 0, _ => none
  | fuel + 1, l =>
    match skipWs l with
    | [] => none
    | c :: r =>
      if c = '\x7b' then
        match skipWs r with
        | [] => none
        | c2 :: r2 =>
          if c2 = '\x7d' then some (.obj [], r2)
          else (parseMembers fuel (c2 :: r2)).map (fun p => (.obj p.1, p.2))
      else if c = '[' then
        match skipWs r with
        | [] => none
        | c2 :: r2 =>
          if c2 = ']' then some (.arr [], r2)
          else (parseElems fuel (c2 :: r2)).map (fun p => (.arr p.1, p.2))
      else if c = '"' then (parseStrBody (r.length + 1) r).map (fun p => (.str p.1, p.2))
      else if c = 't' then
        match r with
        | c1 :: c2 :: c3 :: r2 =>
          if c1 = 'r' ∧ c2 = 'u' ∧ c3 = 'e' then some (.bool true, r2) else none
        | _ => none
      else if c = 'f' then
        match r with
        | c1 :: c2 :: c3 :: c4 :: r2 =>
          if c1 = 'a' ∧ c2 = 'l' ∧ c3 = 's' ∧ c4 = 'e' then some (.bool false, r2) else none
        | _ => none
      else if c = 'n' then
        match r with
        | c1 :: c2 :: c3 :: r2 =>
          if c1 = 'u' ∧ c2 = 'l' ∧ c3 = 'l' then some (.null, r2) else none
        | _ => none
      else (parseNumber (c :: r)).map (fun p => (.num p.1, p.2))

/-- Members of a non-empty JSON object (after the opening brace and any
whitespace, when the next character is not a closing brace). -/
def parseMembers : Nat → List Char → Option (List (List Char × Json) × List Char)
  | 0, _ => none
  | fuel + 1, l =>
    match skipWs l with
    | [] => none
    | c :: r =>
      if c = '"' then
        (parseStrBody (r.length + 1) r).bind (fun pk =>
          match skipWs pk.2 with
          | [] => none
          | c2 :: r2 =>
            if c2 = ':' then
              (parseVal fuel r2).bind (fun pv =>
                match skipWs pv.2 with
                | [] => none
                | c4 :: r4 =>
                  if c4 = ',' then
                    (parseMembers fuel r4).map (fun p => ((pk.1, pv.1) :: p.1, p.2))
                  else if c4 = '\x7d' then some ([(pk.1, pv.1)], r4)
                  else none)
            else none)
      else none

/-- Elements of a non-empty JSON array. -/
def parseElems : Nat → List Char → Option (List Json × List Char)
  | 0, _ => none
  | fuel + 1, l =>
    (parseVal fuel l).bind (fun pv =>
      match skipWs pv.2 with
      | [] => none
      | c :: r1 =>
        if c = ',' then (parseElems fuel r1).map (fun p => (pv.1 :: p.1, p.2))
        else if c = ']' then some ([pv.1], r1)
        else none)

end

/-- Whole-document parse, as `json.load`: one value, then only whitespace. -/
def parseJsonDoc (l : List Char) : Option Json :=
  (parseVal (l.length + 1) l).bind (fun p => if skipWs p.2 = [] then some p.1 else none)

/-- String field access on a parsed dict. -/
def jStr : Option Json → Option String
  | some (.str s) => some (String.mk s)
  | _ => none

/-- Integer field access on a parsed dict. -/
def jNum : Option Json → Option Int
  | some (.num n) => some n
  | _ => none

/-- Boolean field access on a parsed dict. -/
def jBool : Option Json → Option Bool
  | some (.bool b) => some b
  | _ => none

/-- The field accesses the script performs on each submission dict,
producing the typed record. -/
def subOfJson : Json → Option Submission
  | .obj kvs => do
    let n ← jNum (kvs.lookup kIssueNumber)
    let sn ← jStr (kvs.lookup kStudentName)
    let ml ← jStr (kvs.lookup kModelLength)
    let ac ← jStr (kvs.lookup kAccuracy)
    let tb ← jStr (kvs.lookup kTensorboardLink)
    let imp ← jStr (kvs.lookup kImprovementDescription)
    let gh ← jStr (kvs.lookup kGpuHours)
    let url ← jStr (kvs.lookup kIssueUrl)
    let ts ← jStr (kvs.lookup kSubmittedAt)
    let vf ← jBool (kvs.lookup kVerified)
    pure { issue_number := n, student_name := sn, model_length := ml, accuracy := ac,
           tensorboard_link := tb, improvement_description := imp, gpu_hours := gh,
           issue_url := url, submitted_at := ts, verified := vf }
  | _ => none

/-- Decode the whole store: the `submissions` key of the top-level object. -/
def storeOfJson : Json → Option (List Submission)
  | .obj kvs =>
    (kvs.lookup kSubmissions).bind (fun j =>
      match j with
      | .arr vs => vs.mapM subOfJson
      | _ => none)
  | _ => none

/-- Parse a leaderboard file: `json.load` plus the per-field accesses. -/
def parseStore (l : List Char) : Option (List Submission) := do
  let j ← parseJsonDoc l
  storeOfJson j

/-! ## The file-level operations -/

/-- The backing file: `none` models "the file does not exist". -/
structure FS where
  file : Option (List Char)
deriving DecidableEq

/-- Model of `load_leaderboard`: a fresh empty store when the file does not
exist; otherwise parse it, a parse failure propagating as a fatal error. -/
def load_leaderboard (fs : FS) : Except String (List Submission) :=
  match fs.file with
  | none => .ok []
  | some content =>
    match parseStore content with
    | some subs => .ok subs
    | none => .error "json.load failed"

/-- Model of `save_leaderboard`: overwrite the backing file in full with
the `indent=2` serialisation. -/
def save_leaderboard (subs : List Submission) : FS :=
  { file := some (printStore subs) }

/-- Model of `update_leaderboard`: load, merge the candidate, re-sort,
save.  Always succeeds apart from load errors. -/
def update_leaderboard (issue_number : Int)
    (issue_title issue_author issue_body issue_url now : String)
    (fs : FS) : Except String FS :=
  (load_leaderboard fs).map (fun lb =>
    save_leaderboard
      (update_submissions issue_number issue_title issue_author issue_body issue_url now lb))

/-- Model of `mark_verified`: set the flag on the first match and save
(returning `true`), or leave the file untouched and return `false`. -/
def mark_verified (issue_number : Int) (fs : FS) : Except String (FS × Bool) :=
  (load_leaderboard fs).map (fun lb =>
    match setVerified issue_number lb with
    | some lb2 => (save_leaderboard lb2, true)
    | none => (fs, false))

/-- Model of `remove_submission`: filter out the issue number; save only
when the length decreased, otherwise leave the file untouched. -/
def remove_submission (issue_number : Int) (fs : FS) : Except String (FS × Bool) :=
  (load_leaderboard fs).map (fun lb =>
    let lb2 := lb.filter (fun sub => !(sub.issue_number == issue_number))
    if lb2.length < lb.length then (save_leaderboard lb2, true) else (fs, false))

/-! ## The command-line surface -/

/-- Outcome of the argument dispatch in `__main__`.  `usage`,
`missingArgs` and `unknown` all print a message and exit with status 1;
the `run…` outcomes proceed to the corresponding operation (for `update`,
`sys.argv[2]` is converted with `int(...)` afterwards). -/
inductive CliOutcome where
  | usage : CliOutcome
  | missingArgs (action : String) : CliOutcome
  | unknown (action : String) : CliOutcome
  | runUpdate (issue_number issue_title issue_author issue_url issue_body : String) : CliOutcome
  | runVerify (issue_number : String) : CliOutcome
  | runRemove (issue_number : String) : CliOutcome
deriving DecidableEq

/-- The `__main__` dispatch: `argv` includes the program name at index 0.
The script checks `len(sys.argv) < 2` (usage), then for `update` checks
`len(sys.argv) < 7` and reads `sys.argv[2..6]` — i.e. it requires at
least five positional arguments after the action and ignores any extras;
`verify`/`remove` similarly require at least one.  The length checks are
rendered here as list patterns (`len < 7` holds exactly when fewer than
five arguments follow the action). -/
def cliDispatch (argv : List String) : CliOutcome :=
  match argv with
  | [] => .usage
  | [_] => .usage
  | _ :: action :: args =>
    if action = "update" then
      match args with
      | a1 :: a2 :: a3 :: a4 :: a5 :: _ => .runUpdate a1 a2 a3 a4 a5
      | _ => .missingArgs action
    else if action = "verify" then
      match args with
      | a1 :: _ => .runVerify a1
      | _ => .missingArgs action
    else if action = "remove" then
      match args with
      | a1 :: _ => .runRemove a1
      | _ => .missingArgs action
    else .unknown action

/-! ## Claims -/

/-- C1: the specification demands that a heading's value capture spans
multiple lines (e.g. `"Line one.\nLine two."` for the example body).
Because the patterns are compiled with `re.MULTILINE`, the `$` inside the
lookahead `(?=\n###|\n\n###|$)` already matches before the first newline,
so the lazy group stops at the end of the first line: the code extracts
only `"Line one."`.  This theorem evaluates the embedded parser at the
failing input (the second conjunct shows the following heading still
parses on its own, so the defect is precisely the truncation). -/
theorem c1_multiline_capture_truncated :
    (parse_issue_body
        "### Improvement Description\nLine one.\nLine two.\n\n### GPU Hours\n10").improvement_description
      = some "Line one." ∧
    (parse_issue_body
        "### Improvement Description\nLine one.\nLine two.\n\n### GPU Hours\n10").gpu_hours
      = some "10" := by
  exact ⟨by decide, by decide⟩

/-- C2: the rank key is `-1` for the exact sentinel `"N/A"`; otherwise the
accuracy string is stripped of surrounding whitespace and of every percent
sign, and if the remainder parses as a float `v` the key is `v / 100` when
`v > 1` and `v` otherwise, while a parse failure again gives `-1`.  The
embedding is pure, so the stored accuracy string is never mutated (the
function only reads `sub.accuracy`). -/
theorem c2_rank_key_characterisation (sub : Submission) :
    (sub.accuracy = "N/A" → get_accuracy_value sub = -1) ∧
    (sub.accuracy ≠ "N/A" →
      ∀ v : ℚ, pyFloat ((pyStrip sub.accuracy.data).filter (fun c => !(c == '%'))) = some v →
        get_accuracy_value sub = if 1 < v then v / 100 else v) ∧
    (sub.accuracy ≠ "N/A" →
      pyFloat ((pyStrip sub.accuracy.data).filter (fun c => !(c == '%'))) = none →
        get_accuracy_value sub = -1) := by
  refine ⟨fun h => ?_, fun h v hv => ?_, fun h hn => ?_⟩
  · simp [get_accuracy_value, h]
  · simp only [get_accuracy_value, if_neg h, hv]
  · simp only [get_accuracy_value, if_neg h, hn]

/-- Concrete submission with the sentinel accuracy, for the C2 witness. -/
def subAccNA : Submission :=
  { issue_number := 1, student_name := "a", model_length := "N/A", accuracy := "N/A",
    tensorboard_link := "", improvement_description := "", gpu_hours := "N/A",
    issue_url := "u", submitted_at := "t", verified := false }

/-- Concrete submission with a non-numeric accuracy, for the C2 witness. -/
def subAccText : Submission :=
  { issue_number := 2, student_name := "b", model_length := "N/A", accuracy := "fast",
    tensorboard_link := "", improvement_description := "", gpu_hours := "N/A",
    issue_url := "u", submitted_at := "t", verified := false }

/-- Witness for C2: the sentinel branch and the parse-failure branch both
yield the rank key `-1` on concrete submissions. -/
theorem c2_rank_key_witness :
    get_accuracy_value subAccNA = -1 ∧ get_accuracy_value subAccText = -1 :=
  ⟨(c2_rank_key_characterisation subAccNA).1 rfl,
   (c2_rank_key_characterisation subAccText).2.2 (by decide) (by decide)⟩

/-- C9 counterexample: an `update` invocation with six positional
arguments after the action (eight `argv` entries in total) still succeeds
as an update — the extra argument is silently ignored — refuting the
claim that an invocation succeeds as an update only when exactly five
are supplied. -/
theorem c9_extra_argument_still_updates :
    cliDispatch ["process_issue.py", "update", "1", "Title", "alice", "http://u", "body", "extra"]
      = CliOutcome.runUpdate "1" "Title" "alice" "http://u" "body" ∧
    (["process_issue.py", "update", "1", "Title", "alice", "http://u", "body",
      "extra"] : List String).length = 8 :=
  ⟨rfl, rfl⟩

/-- C9 (amended): the `update` action requires at least five positional
arguments after the action name; with fewer the process prints an error
and exits with status 1, and with five or more the update path is taken
with the first five (extra arguments are ignored). -/
theorem c9_update_arity_amended :
    (∀ (prog a1 a2 a3 a4 a5 : String) (extra : List String),
      cliDispatch (prog :: "update" :: a1 :: a2 :: a3 :: a4 :: a5 :: extra)
        = CliOutcome.runUpdate a1 a2 a3 a4 a5) ∧
    (∀ (prog : String) (rest : List String), rest.length < 5 →
      cliDispatch (prog :: "update" :: rest) = CliOutcome.missingArgs "update") := by
  constructor
  · intro prog a1 a2 a3 a4 a5 extra
    rfl
  · intro prog rest h
    rcases rest with _ | ⟨a1, _ | ⟨a2, _ | ⟨a3, _ | ⟨a4, _ | ⟨a5, more⟩⟩⟩⟩⟩ <;>
      first
        | rfl
        | (exfalso; simp only [List.length_cons] at h; omega)

/-- Witness for C9 (amended): five arguments dispatch to the update path;
one argument reports missing arguments. -/
theorem c9_update_arity_witness :
    cliDispatch ["p", "update", "1", "t", "a", "u", "b"]
      = CliOutcome.runUpdate "1" "t" "a" "u" "b" ∧
    cliDispatch ["p", "update", "1"] = CliOutcome.missingArgs "update" :=
  ⟨c9_update_arity_amended.1 "p" "1" "t" "a" "u" "b" [],
   c9_update_arity_amended.2 "p" ["1"] (by decide)⟩

/-- C10: the result of an update is independent of the `issue_title`
argument — it influences no field of the stored submission — both for the
in-memory store transformation and for the resulting backing file. -/
theorem c10_title_independence (n : Int) (t1 t2 author body url now : String)
    (subs : List Submission) (fs : FS) :
    update_submissions n t1 author body url now subs
        = update_submissions n t2 author body url now subs ∧
      update_leaderboard n t1 author body url now fs
        = update_leaderboard n t2 author body url now fs :=
  ⟨rfl, rfl⟩

/-! ## Store-operation lemmas (uniqueness, stickiness, sorting) -/

/-- The issue numbers of a store, in order. -/
def issueNums (l : List Submission) : List Int := l.map (fun s => s.issue_number)

/-- The first submission with a given issue number (the one the loops in
`update_leaderboard` and `mark_verified` operate on). -/
def findFirstNum (n : Int) : List Submission → Option Submission
  | [] => none
  | s :: rest => if s.issue_number = n then some s else findFirstNum n rest

/-- The store transform of `mark_verified` (unchanged when not found). -/
def verify_submissions (n : Int) (l : List Submission) : List Submission :=
  (setVerified n l).getD l

/-- The store transform of `remove_submission`. -/
def remove_submissions (n : Int) (l : List Submission) : List Submission :=
  l.filter (fun s => !(s.issue_number == n))

lemma nodup_cons_nums {s : Submission} {l : List Submission}
    (h : (issueNums (s :: l)).Nodup) :
    s.issue_number ∉ issueNums l ∧ (issueNums l).Nodup := by
  rw [issueNums, List.map_cons, List.nodup_cons] at h
  exact h

lemma insertSub_of_not_mem {n : Int} {new : Submission} {l : List Submission}
    (h : n ∉ issueNums l) : insertSub n new l = l ++ [new] := by
  induction l with
  | nil => rfl
  | cons s rest ih =>
    rw [issueNums, List.map_cons, List.mem_cons, not_or] at h
    simp only [insertSub]
    rw [if_neg (Ne.symm h.1), ih h.2, List.cons_append]

lemma insertSub_map_of_mem {n : Int} {new : Submission} (hnew : new.issue_number = n)
    {l : List Submission} (h : n ∈ issueNums l) :
    issueNums (insertSub n new l) = issueNums l := by
  induction l with
  | nil => simp [issueNums] at h
  | cons s rest ih =>
    by_cases hs : s.issue_number = n
    · simp only [insertSub]
      rw [if_pos hs]
      simp [issueNums, hnew, hs]
    · rw [issueNums, List.map_cons, List.mem_cons] at h
      rcases h with h | h
      · exact absurd h.symm hs
      · simp only [insertSub]
        rw [if_neg hs, issueNums, List.map_cons, issueNums, List.map_cons]
        exact congrArg _ (ih h)

lemma insertSub_nodup {n : Int} {new : Submission} (hnew : new.issue_number = n)
    {l : List Submission} (h : (issueNums l).Nodup) :
    (issueNums (insertSub n new l)).Nodup := by
  by_cases hm : n ∈ issueNums l
  · rw [insertSub_map_of_mem hnew hm]; exact h
  · rw [insertSub_of_not_mem hm, issueNums, List.map_append]
    rw [List.nodup_append]
    refine ⟨h, by simp, ?_⟩
    intro a ha hb
    simp only [List.map_cons, List.map_nil, List.mem_singleton] at hb
    subst hb
    rw [hnew] at ha
    exact hm ha

lemma insertSub_mem_num {n : Int} {new : Submission} (hnew : new.issue_number = n)
    (l : List Submission) : n ∈ issueNums (insertSub n new l) := by
  induction l with
  | nil => simp [insertSub, issueNums, hnew]
  | cons s rest ih =>
    by_cases hs : s.issue_number = n
    · simp only [insertSub]
      rw [if_pos hs]
      simp [issueNums, hnew]
    · simp only [insertSub]
      rw [if_neg hs, issueNums, List.map_cons]
      exact List.mem_cons_of_mem _ ih

/-- Entries of the merged (pre-sort) store carrying the target number are
exactly the candidate, with its `verified` flag taken from the previously
stored submission when there was one. -/
lemma insertSub_entries {n : Int} {new : Submission} (hnew : new.issue_number = n) :
    ∀ {l : List Submission}, (issueNums l).Nodup →
      ∀ s ∈ insertSub n new l, s.issue_number = n →
        s = { new with
              verified := ((findFirstNum n l).map (fun o => o.verified)).getD new.verified } := by
  intro l
  induction l with
  | nil =>
    intro _ s hs _
    simp only [insertSub, List.mem_singleton] at hs
    subst hs
    rfl
  | cons s0 rest ih =>
    intro hnd s hs hsn
    have hnd' := nodup_cons_nums hnd
    by_cases h0 : s0.issue_number = n
    · rw [insertSub, if_pos h0] at hs
      rcases List.mem_cons.mp hs with hs | hs
      · subst hs
        rw [findFirstNum, if_pos h0]
        rfl
      · exfalso
        apply hnd'.1
        rw [h0, ← hsn]
        exact List.mem_map_of_mem (fun t => t.issue_number) hs
    · rw [insertSub, if_neg h0] at hs
      rcases List.mem_cons.mp hs with hs | hs
      · subst hs; exact absurd hsn h0
      · rw [findFirstNum, if_neg h0]
        exact ih hnd'.2 s hs hsn

lemma findFirstNum_of_mem {n : Int} :
    ∀ {l : List Submission}, (issueNums l).Nodup →
      ∀ old ∈ l, old.issue_number = n → findFirstNum n l = some old := by
  intro l
  induction l with
  | nil => intro _ old h; simp at h
  | cons s0 rest ih =>
    intro hnd old hold holdn
    have hnd' := nodup_cons_nums hnd
    rcases List.mem_cons.mp hold with h | h
    · subst h; rw [findFirstNum, if_pos holdn]
    · by_cases h0 : s0.issue_number = n
      · exfalso
        apply hnd'.1
        rw [h0, ← holdn]
        exact List.mem_map_of_mem (fun t => t.issue_number) h
      · rw [findFirstNum, if_neg h0]
        exact ih hnd'.2 old h holdn

lemma setVerified_none_of_not_found {n : Int} :
    ∀ {l : List Submission}, (∀ s ∈ l, s.issue_number ≠ n) → setVerified n l = none := by
  intro l
  induction l with
  | nil => intro _; rfl
  | cons s0 rest ih =>
    intro h
    rw [setVerified, if_neg (h s0 (List.mem_cons_self _ _)),
      ih (fun s hs => h s (List.mem_cons_of_mem _ hs))]
    rfl

lemma setVerified_spec {n : Int} :
    ∀ {l l' : List Submission}, setVerified n l = some l' →
      issueNums l' = issueNums l ∧
      ∃ old, findFirstNum n l = some old ∧
        findFirstNum n l' = some { old with verified := true } := by
  intro l
  induction l with
  | nil => intro l' h; exact Option.noConfusion h
  | cons s0 rest ih =>
    intro l' h
    by_cases h0 : s0.issue_number = n
    · rw [setVerified, if_pos h0, Option.some.injEq] at h
      subst h
      refine ⟨by simp [issueNums], s0, ?_, ?_⟩
      · rw [findFirstNum, if_pos h0]
      · rw [findFirstNum]
        simp only [if_pos h0]
    · rw [setVerified, if_neg h0] at h
      cases hrest : setVerified n rest with
      | none => rw [hrest] at h; exact Option.noConfusion h
      | some r' =>
        rw [hrest] at h
        simp only [Option.map_some'] at h
        rw [Option.some.injEq] at h
        subst h
        obtain ⟨hmap, old, hfind, hfind'⟩ := ih hrest
        refine ⟨?_, old, ?_, ?_⟩
        · simp only [issueNums] at hmap ⊢
          simp [hmap]
        · rw [findFirstNum, if_neg h0]; exact hfind
        · rw [findFirstNum, if_neg h0]; exact hfind'

lemma rankLe_trans : ∀ a b c : Submission,
    rankLe a b = true → rankLe b c = true → rankLe a c = true := by
  intro a b c hab hbc
  simp only [rankLe, decide_eq_true_eq] at hab hbc ⊢
  exact le_trans hbc hab

lemma rankLe_total : ∀ a b : Submission, (rankLe a b || rankLe b a) = true := by
  intro a b
  simp only [rankLe, Bool.or_eq_true, decide_eq_true_eq]
  exact le_total _ _

lemma update_submissions_perm (n : Int) (t author body url now : String)
    (l : List Submission) :
    (update_submissions n t author body url now l).Perm
      (insertSub n (buildSubmission n author body url now) l) :=
  List.mergeSort_perm _ _

lemma update_submissions_nodup (n : Int) (t author body url now : String)
    {l : List Submission} (h : (issueNums l).Nodup) :
    (issueNums (update_submissions n t author body url now l)).Nodup :=
  ((update_submissions_perm n t author body url now l).map _).nodup_iff.mpr
    (insertSub_nodup (show (buildSubmission n author body url now).issue_number = n from rfl) h)

/-- Count of submissions carrying a given issue number. -/
def countNum (n : Int) (l : List Submission) : Nat :=
  l.countP (fun s => s.issue_number == n)

lemma countNum_eq_zero {n : Int} {l : List Submission} (h : n ∉ issueNums l) :
    countNum n l = 0 := by
  rw [countNum, List.countP_eq_zero]
  intro s hs hc
  apply h
  rw [beq_iff_eq] at hc
  rw [← hc]
  exact List.mem_map_of_mem (fun t => t.issue_number) hs

lemma countNum_one {n : Int} :
    ∀ {l : List Submission}, (issueNums l).Nodup → n ∈ issueNums l → countNum n l = 1 := by
  intro l
  induction l with
  | nil => intro _ hm; simp [issueNums] at hm
  | cons s rest ih =>
    intro huniq hm
    have hnd' := nodup_cons_nums huniq
    rw [issueNums, List.map_cons, List.mem_cons] at hm
    rw [countNum, List.countP_cons]
    rcases hm with hm | hm
    · have h0 : countNum n rest = 0 := countNum_eq_zero (by rw [← hm] at hnd'; exact hnd'.1)
      rw [countNum] at h0
      rw [h0, if_pos (by rw [beq_iff_eq, ← hm])]
    · have hs : ¬ (s.issue_number = n) := fun hc => hnd'.1 (by rw [hc]; exact hm)
      rw [if_neg (by simpa [beq_iff_eq] using hs), ← countNum, ih hnd'.2 hm]

lemma countNum_insertSub {n : Int} {new : Submission} (hnew : new.issue_number = n)
    {l : List Submission} (huniq : (issueNums l).Nodup) :
    countNum n (insertSub n new l) = 1 := by
  by_cases hm : n ∈ issueNums l
  · exact countNum_one (insertSub_nodup hnew huniq)
      (by rw [insertSub_map_of_mem hnew hm]; exact hm)
  · rw [insertSub_of_not_mem hm, countNum, List.countP_append]
    have h0 : countNum n l = 0 := countNum_eq_zero hm
    rw [countNum] at h0
    rw [h0]
    simp [List.countP_cons, hnew]

/-- C3: `verified` is sticky.  Under uniqueness of issue numbers: the
candidate stored by an update for issue `n` carries the `verified` flag of
the previously stored submission for `n` (first conjunct), so in
particular updating right after `mark_verified` leaves `verified = true`
(second conjunct, with `setVerified n l = some l'` expressing that `n`
was present and got marked). -/
theorem c3_verified_sticky (l : List Submission) (n : Int)
    (huniq : (issueNums l).Nodup) (t author body url now : String) :
    (∀ old ∈ l, old.issue_number = n →
      ∀ s ∈ update_submissions n t author body url now l,
        s.issue_number = n → s.verified = old.verified) ∧
    (∀ l', setVerified n l = some l' →
      ∀ s ∈ update_submissions n t author body url now l',
        s.issue_number = n → s.verified = true) := by
  have hnew : (buildSubmission n author body url now).issue_number = n := rfl
  constructor
  · intro old hold holdn s hs hsn
    have hmem : s ∈ insertSub n (buildSubmission n author body url now) l :=
      ((update_submissions_perm n t author body url now l).mem_iff).mp hs
    have hent := insertSub_entries hnew huniq s hmem hsn
    rw [hent, findFirstNum_of_mem huniq old hold holdn]
    rfl
  · intro l' hset s hs hsn
    obtain ⟨hmap, old, hfind, hfind'⟩ := setVerified_spec hset
    have huniq' : (issueNums l').Nodup := by rw [hmap]; exact huniq
    have hmem : s ∈ insertSub n (buildSubmission n author body url now) l' :=
      ((update_submissions_perm n t author body url now l').mem_iff).mp hs
    have hent := insertSub_entries hnew huniq' s hmem hsn
    rw [hent, hfind']
    rfl

/-- The submission produced by the update in the C3 witness. -/
def candC3 : Submission :=
  { buildSubmission 1 "auth" "body text" "url" "now2" with verified := true }

/-- Witness for C3: on the concrete one-element store, marking issue 1
verified and then updating it yields a stored submission that is still
verified. -/
theorem c3_verified_sticky_witness : candC3.verified = true := by
  have h : insertSub 1 (buildSubmission 1 "auth" "body text" "url" "now2")
      [{ subAccNA with verified := true }] = [candC3] := by decide
  have hmem : candC3 ∈ update_submissions 1 "t" "auth" "body text" "url" "now2"
      [{ subAccNA with verified := true }] := by
    rw [update_submissions, h, List.mergeSort_singleton]
    exact List.mem_singleton_self _
  exact (c3_verified_sticky [subAccNA] 1 (by decide) "t" "auth" "body text" "url" "now2").2
    [{ subAccNA with verified := true }] (by decide) candC3 hmem rfl

/-- C4: after every update the collection is sorted in descending order of
the rank key, and submissions with equal rank keys retain their pre-sort
relative order: filtering the sorted result to any fixed key value gives
exactly the same sequence as filtering the merged (pre-sort) store. -/
theorem c4_sorted_descending_stable (n : Int) (t author body url now : String)
    (l : List Submission) :
    List.Pairwise (fun a b => get_accuracy_value b ≤ get_accuracy_value a)
      (update_submissions n t author body url now l) ∧
    ∀ q : ℚ,
      (update_submissions n t author body url now l).filter
          (fun s => decide (get_accuracy_value s = q))
        = (insertSub n (buildSubmission n author body url now) l).filter
            (fun s => decide (get_accuracy_value s = q)) := by
  constructor
  · have h := List.sorted_mergeSort rankLe_trans rankLe_total
      (insertSub n (buildSubmission n author body url now) l)
    exact h.imp (fun hab => by simpa [rankLe, decide_eq_true_eq] using hab)
  · intro q
    have hperm :
        ((insertSub n (buildSubmission n author body url now) l).mergeSort rankLe).filter
            (fun s => decide (get_accuracy_value s = q))
          |>.Perm ((insertSub n (buildSubmission n author body url now) l).filter
            (fun s => decide (get_accuracy_value s = q))) :=
      (List.mergeSort_perm _ rankLe).filter _
    have hpair : List.Pairwise (fun a b => rankLe a b = true)
        ((insertSub n (buildSubmission n author body url now) l).filter
          (fun s => decide (get_accuracy_value s = q))) := by
      apply List.pairwise_of_forall_mem_list
      intro a ha b hb
      have ha' : get_accuracy_value a = q := by
        simpa using (List.mem_filter.mp ha).2
      have hb' : get_accuracy_value b = q := by
        simpa using (List.mem_filter.mp hb).2
      simp [rankLe, ha', hb']
    have hsub : List.Sublist
        ((insertSub n (buildSubmission n author body url now) l).filter
          (fun s => decide (get_accuracy_value s = q)))
        ((insertSub n (buildSubmission n author body url now) l).mergeSort rankLe) :=
      List.sublist_mergeSort rankLe_trans rankLe_total hpair (List.filter_sublist _)
    have hself : ((insertSub n (buildSubmission n author body url now) l).filter
          (fun s => decide (get_accuracy_value s = q))).filter
          (fun s => decide (get_accuracy_value s = q))
        = (insertSub n (buildSubmission n author body url now) l).filter
          (fun s => decide (get_accuracy_value s = q)) :=
      List.filter_eq_self.mpr (fun a ha => (List.mem_filter.mp ha).2)
    have hsub2 : List.Sublist
        ((insertSub n (buildSubmission n author body url now) l).filter
          (fun s => decide (get_accuracy_value s = q)))
        (((insertSub n (buildSubmission n author body url now) l).mergeSort rankLe).filter
          (fun s => decide (get_accuracy_value s = q))) := by
      rw [← hself]
      exact hsub.filter _
    exact (hsub2.eq_of_length hperm.length_eq.symm).symm

/-- C5: each operation preserves "at most one submission per issue
number" (stated as: the issue numbers of the store stay duplicate-free). -/
theorem c5_uniqueness_preserved (n : Int) (t author body url now : String)
    (l : List Submission) (huniq : (issueNums l).Nodup) :
    (issueNums (update_submissions n t author body url now l)).Nodup ∧
    (issueNums (verify_submissions n l)).Nodup ∧
    (issueNums (remove_submissions n l)).Nodup := by
  refine ⟨update_submissions_nodup n t author body url now huniq, ?_, ?_⟩
  · rw [verify_submissions]
    cases hv : setVerified n l with
    | none => simpa using huniq
    | some l2 =>
      simp only [Option.getD_some]
      rw [(setVerified_spec hv).1]
      exact huniq
  · have hsub : List.Sublist (issueNums (remove_submissions n l)) (issueNums l) :=
      (List.filter_sublist l).map _
    exact huniq.sublist hsub

/-- Witness for C5: the three preservation facts on a concrete two-element
store with distinct issue numbers. -/
theorem c5_uniqueness_witness :
    (issueNums (update_submissions 1 "t" "a" "b" "u" "now" [subAccNA, subAccText])).Nodup ∧
    (issueNums (verify_submissions 1 [subAccNA, subAccText])).Nodup ∧
    (issueNums (remove_submissions 1 [subAccNA, subAccText])).Nodup :=
  c5_uniqueness_preserved 1 "t" "a" "b" "u" "now" [subAccNA, subAccText] (by decide)

/-- C7: updating twice with identical arguments leaves exactly one
submission with that issue number in the final store. -/
theorem c7_update_idempotent_count (n : Int) (t author body url now : String)
    (l : List Submission) (huniq : (issueNums l).Nodup) :
    countNum n (update_submissions n t author body url now
      (update_submissions n t author body url now l)) = 1 := by
  have h1uniq := update_submissions_nodup n t author body url now huniq
  have h2 : countNum n (update_submissions n t author body url now
        (update_submissions n t author body url now l))
      = countNum n (insertSub n (buildSubmission n author body url now)
        (update_submissions n t author body url now l)) :=
    (update_submissions_perm n t author body url now _).countP_eq _
  rw [h2]
  exact countNum_insertSub
    (show (buildSubmission n author body url now).issue_number = n from rfl) h1uniq

/-- Witness for C7: two identical updates against the empty store leave a
single submission for issue 3. -/
theorem c7_update_idempotent_witness :
    countNum 3 (update_submissions 3 "t" "a" "b" "u" "now"
      (update_submissions 3 "t" "a" "b" "u" "now" [])) = 1 :=
  c7_update_idempotent_count 3 "t" "a" "b" "u" "now" [] (by decide)

/-- C6: `mark_verified` and `remove_submission` on an issue number absent
from the store leave the backing file completely unchanged (no write),
report "not found" (the `false` component, matching the script's printed
message and `return False`), and raise no error (the result is `.ok`,
i.e. no failure exit is taken for this condition). -/
theorem c6_not_found_noop (fs : FS) (l : List Submission) (n : Int)
    (hload : load_leaderboard fs = .ok l)
    (habsent : ∀ s ∈ l, s.issue_number ≠ n) :
    mark_verified n fs = .ok (fs, false) ∧ remove_submission n fs = .ok (fs, false) := by
  constructor
  · rw [mark_verified, hload]
    simp only [Except.map]
    rw [setVerified_none_of_not_found habsent]
  · rw [remove_submission, hload]
    simp only [Except.map]
    have hfilter : l.filter (fun sub => !(sub.issue_number == n)) = l :=
      List.filter_eq_self.mpr (fun s hs => by
        simpa using habsent s hs)
    rw [hfilter]
    simp

/-- Witness for C6: verifying or removing issue 999 against the missing
(hence empty) store is a no-op that reports "not found". -/
theorem c6_not_found_noop_witness :
    mark_verified 999 { file := none } = .ok ({ file := none }, false) ∧
    remove_submission 999 { file := none } = .ok ({ file := none }, false) :=
  c6_not_found_noop { file := none } [] 999 rfl (by simp)

/-! ## Round-trip lemmas: whitespace and numbers -/

lemma skipWs_cons_ws (c : Char) (h : jsonWs c = true) (l : List Char) :
    skipWs (c :: l) = skipWs l := by
  simp [skipWs, h]

lemma skipWs_cons_not (c : Char) (h : jsonWs c = false) (l : List Char) :
    skipWs (c :: l) = c :: l := by
  simp [skipWs, h]

lemma skipWs_sp (n : Nat) (l : List Char) : skipWs (sp n ++ l) = skipWs l := by
  induction n with
  | zero => rfl
  | succ m ih =>
    rw [sp, List.replicate_succ, List.cons_append, skipWs_cons_ws ' ' rfl]
    exact ih

lemma parseVal_congr {l1 l2 : List Char} (h : skipWs l1 = skipWs l2) (fuel : Nat) :
    parseVal fuel l1 = parseVal fuel l2 := by
  cases fuel with
  | zero => rfl
  | succ f => simp only [parseVal]; rw [h]

lemma parseMembers_congr {l1 l2 : List Char} (h : skipWs l1 = skipWs l2) (fuel : Nat) :
    parseMembers fuel l1 = parseMembers fuel l2 := by
  cases fuel with
  | zero => rfl
  | succ f => simp only [parseMembers]; rw [h]

lemma parseElems_congr {l1 l2 : List Char} (h : skipWs l1 = skipWs l2) (fuel : Nat) :
    parseElems fuel l1 = parseElems fuel l2 := by
  cases fuel with
  | zero => rfl
  | succ f => simp only [parseElems]; rw [parseVal_congr h]

lemma skipWs_chunk (ind : Nat) (l : List Char) :
    skipWs ('\n' :: (sp ind ++ l)) = skipWs l := by
  rw [skipWs_cons_ws '\n' rfl, skipWs_sp]

/-- Does the next character stop a JSON number scan? -/
def numBoundary : List Char → Bool
  | [] => true
  | c :: _ => !c.isDigit && !(c == '.') && !(c == 'e') && !(c == 'E')

lemma digChar_facts : ∀ d < 10,
    (digChar d).isDigit = true ∧ jsonWs (digChar d) = false ∧ digChar d ≠ '-' ∧
    digChar d ≠ '\x7b' ∧ digChar d ≠ '[' ∧ digChar d ≠ '"' ∧ digChar d ≠ 't' ∧
    digChar d ≠ 'f' ∧ digChar d ≠ 'n' ∧ (digChar d).toNat = 48 + d ∧
    digChar d ≠ '.' ∧ digChar d ≠ 'e' ∧ digChar d ≠ 'E' := by decide

/-- Character lists that consist of decimal digit characters. -/
def allDigitChars (l : List Char) : Prop := ∀ c ∈ l, ∃ d, d < 10 ∧ c = digChar d

lemma printNat_shape (n : Nat) :
    ∃ d ds, printNat n = digChar d :: ds ∧ d < 10 ∧ allDigitChars ds := by
  by_cases h : n = 0
  · subst h
    exact ⟨0, [], rfl, by norm_num, fun c hc => absurd hc (List.not_mem_nil c)⟩
  · rw [printNat, if_neg h]
    have hne : (Nat.digits 10 n).reverse ≠ [] := by
      simpa using Nat.digits_ne_nil_iff_ne_zero.mpr h
    obtain ⟨e, es, hes⟩ := List.exists_cons_of_ne_nil hne
    have hmem : ∀ x ∈ (Nat.digits 10 n).reverse, x < 10 := fun x hx =>
      Nat.digits_lt_base (by norm_num) (List.mem_reverse.mp hx)
    refine ⟨e, es.map digChar, by rw [hes, List.map_cons], ?_, ?_⟩
    · exact hmem e (by rw [hes]; exact List.mem_cons_self _ _)
    · intro c hc
      obtain ⟨d2, hd2mem, hd2⟩ := List.mem_map.mp hc
      have : d2 ∈ (Nat.digits 10 n).reverse := by
        rw [hes]; exact List.mem_cons_of_mem _ hd2mem
      exact ⟨d2, hmem d2 this, hd2.symm⟩

lemma printNat_head_not_zero_pad (n : Nat) :
    ¬((printNat n).length > 1 ∧ (printNat n).headD ' ' = '0') := by
  rintro ⟨hlen, hhead⟩
  by_cases h : n = 0
  · rw [h] at hlen
    simp [printNat] at hlen
  · rw [printNat, if_neg h] at hlen hhead
    have hne : (Nat.digits 10 n).reverse ≠ [] := by
      simpa using Nat.digits_ne_nil_iff_ne_zero.mpr h
    obtain ⟨e, es, hes⟩ := List.exists_cons_of_ne_nil hne
    rw [hes, List.map_cons, List.headD_cons] at hhead
    have he10 : e < 10 :=
      Nat.digits_lt_base (by norm_num) (List.mem_reverse.mp (by rw [hes]; exact List.mem_cons_self _ _))
    have he0 : e = 0 := by
      have h48 := (digChar_facts e he10).2.2.2.2.2.2.2.2.2.1
      have : (digChar e).toNat = 48 := by rw [hhead]; rfl
      omega
    have hlast : (Nat.digits 10 n).getLast? = some e := by
      rw [← List.head?_reverse, hes, List.head?_cons]
    have hnz := Nat.getLast_digit_ne_zero 10 h
    rw [List.getLast?_eq_getLast _ (Nat.digits_ne_nil_iff_ne_zero.mpr h), Option.some.injEq] at hlast
    exact hnz (by rw [hlast, he0])

lemma takeWhile_append_eq {p : Char → Bool} :
    ∀ (l : List Char), (∀ c ∈ l, p c = true) →
      ∀ (r : List Char), (∀ c rs, r = c :: rs → p c = false) →
        (l ++ r).takeWhile p = l := by
  intro l hl
  induction l with
  | nil =>
    intro r hr
    cases r with
    | nil => rfl
    | cons c rs =>
      rw [List.nil_append, List.takeWhile_cons, hr c rs rfl]
      rfl
  | cons a l ih =>
    intro r hr
    rw [List.cons_append, List.takeWhile_cons, hl a (List.mem_cons_self _ _)]
    simp only [if_true]
    rw [ih (fun c hc => hl c (List.mem_cons_of_mem _ hc)) r hr]

lemma foldl_digChar : ∀ (ds : List Nat) (acc : Nat), (∀ d ∈ ds, d < 10) →
    (ds.map digChar).foldl (fun a c => a * 10 + (c.toNat - 48)) acc
      = ds.foldl (fun a d => a * 10 + d) acc := by
  intro ds
  induction ds with
  | nil => intro acc _; rfl
  | cons d ds ih =>
    intro acc h
    rw [List.map_cons, List.foldl_cons, List.foldl_cons,
      (digChar_facts d (h d (List.mem_cons_self _ _))).2.2.2.2.2.2.2.2.2.1]
    have : 48 + d - 48 = d := by omega
    rw [this]
    exact ih _ (fun e he => h e (List.mem_cons_of_mem _ he))

lemma foldl_ofDigits : ∀ (ds : List Nat) (acc : Nat),
    ds.foldl (fun a d => a * 10 + d) acc = acc * 10 ^ ds.length + Nat.ofDigits 10 ds.reverse := by
  intro ds
  induction ds with
  | nil => intro acc; simp [Nat.ofDigits_nil]
  | cons d ds ih =>
    intro acc
    rw [List.foldl_cons, ih, List.reverse_cons, Nat.ofDigits_append, List.length_cons,
      List.length_reverse, Nat.ofDigits_singleton]
    ring

lemma digitsToNat_printNat (n : Nat) : digitsToNat (printNat n) = n := by
  by_cases h : n = 0
  · subst h; decide
  · rw [printNat, if_neg h, digitsToNat]
    have hlt : ∀ d ∈ (Nat.digits 10 n).reverse, d < 10 := fun d hd =>
      Nat.digits_lt_base (by norm_num) (List.mem_reverse.mp hd)
    rw [foldl_digChar _ 0 hlt, foldl_ofDigits]
    simp [Nat.ofDigits_digits]

lemma printNat_ne_nil (n : Nat) : printNat n ≠ [] := by
  obtain ⟨d, ds, hshape, _, _⟩ := printNat_shape n
  rw [hshape]
  exact List.cons_ne_nil _ _

lemma parseNatCanon_printNat (n : Nat) (r : List Char) (hr : numBoundary r = true) :
    parseNatCanon (printNat n ++ r) = some (n, r) := by
  have hdig : ∀ c ∈ printNat n, Char.isDigit c = true := by
    obtain ⟨d, ds, hshape, hd, hds⟩ := printNat_shape n
    rw [hshape]
    intro c hc
    rcases List.mem_cons.mp hc with hc | hc
    · subst hc; exact (digChar_facts d hd).1
    · obtain ⟨e, he, hce⟩ := hds c hc
      subst hce
      exact (digChar_facts e he).1
  have hrb : ∀ c rs, r = c :: rs → Char.isDigit c = false := by
    intro c rs hr'
    subst hr'
    simp only [numBoundary, Bool.and_eq_true, Bool.not_eq_true'] at hr
    exact hr.1.1.1
  have htw : (printNat n ++ r).takeWhile Char.isDigit = printNat n :=
    takeWhile_append_eq _ hdig r hrb
  rw [parseNatCanon, htw]
  have hdrop : (printNat n ++ r).drop (printNat n).length = r := List.drop_left _ _
  rw [hdrop, if_neg (printNat_ne_nil n), if_neg (by exact_mod_cast printNat_head_not_zero_pad n)]
  cases r with
  | nil => rw [digitsToNat_printNat]
  | cons c rs =>
    have hne : ¬(c = '.' ∨ c = 'e' ∨ c = 'E') := by
      simp only [numBoundary, Bool.and_eq_true, Bool.not_eq_true', beq_eq_false_iff_ne] at hr
      obtain ⟨⟨⟨h1, h2⟩, h3⟩, h4⟩ := hr
      rintro (rfl | rfl | rfl)
      · exact h2 rfl
      · exact h3 rfl
      · exact h4 rfl
    show (if c = '.' ∨ c = 'e' ∨ c = 'E' then none
      else some (digitsToNat (printNat n), c :: rs)) = some (n, c :: rs)
    rw [if_neg hne, digitsToNat_printNat]

lemma parseNumber_printInt (n : Int) (r : List Char) (hr : numBoundary r = true) :
    parseNumber (printInt n ++ r) = some (n, r) := by
  by_cases h : n < 0
  · rw [printInt, if_pos h, List.cons_append]
    simp only [parseNumber]
    rw [if_pos trivial, parseNatCanon_printNat _ r hr]
    simp only [Option.map_some']
    have hcast : (((-n).toNat : Int)) = -n := Int.toNat_of_nonneg (by omega)
    rw [hcast, neg_neg]
  · rw [printInt, if_neg h]
    obtain ⟨d, ds, hshape, hd, hds⟩ := printNat_shape n.toNat
    rw [hshape, List.cons_append]
    simp only [parseNumber]
    rw [if_neg (digChar_facts d hd).2.2.1, ← List.cons_append, ← hshape,
      parseNatCanon_printNat _ r hr]
    simp only [Option.map_some']
    rw [Int.toNat_of_nonneg (by omega)]

/-! ## Round-trip lemmas: strings -/

lemma hexVal_hexDig : ∀ d < 16, hexVal (hexDig d) = some d := by decide

lemma hex4Val_hex4 (v : Nat) (h : v < 65536) :
    hex4Val (hexDig (v / 4096 % 16)) (hexDig (v / 256 % 16)) (hexDig (v / 16 % 16))
      (hexDig (v % 16)) = some v := by
  simp only [hex4Val, hexVal_hexDig _ (by omega : v / 4096 % 16 < 16),
    hexVal_hexDig _ (by omega : v / 256 % 16 < 16), hexVal_hexDig _ (by omega : v / 16 % 16 < 16),
    hexVal_hexDig _ (by omega : v % 16 < 16), Option.some.injEq]
  omega

lemma parseStrBody_esc (fuel : Nat) (e ce : Char) (hu : ¬e = 'u') (he : escShort e = some ce)
    (l : List Char) :
    parseStrBody (fuel + 1) ('\\' :: e :: l)
      = (parseStrBody fuel l).map (fun p => (ce :: p.1, p.2)) := by
  simp only [parseStrBody]
  rw [if_pos trivial, if_neg hu, he, Option.some_bind]
  rw [if_neg (show ¬('\\' : Char) = '"' by decide)]

lemma parseStrBody_u (fuel : Nat) (r : List Char) :
    parseStrBody (fuel + 1) ('\\' :: 'u' :: r)
      = (uEscape r).bind (fun q =>
          (parseStrBody fuel q.2).map (fun p => (q.1 :: p.1, p.2))) := by
  simp only [parseStrBody]
  rw [if_pos trivial, if_pos trivial]
  rw [if_neg (show ¬('\\' : Char) = '"' by decide)]

lemma parseStrBody_quote (fuel : Nat) (l : List Char) :
    parseStrBody (fuel + 1) ('"' :: l) = some ([], l) := by
  simp only [parseStrBody]
  rw [if_pos trivial]

lemma parseStrBody_raw (fuel : Nat) (c : Char) (l : List Char) (h1 : ¬c = '"') (h2 : ¬c = '\\')
    (h3 : ¬c.toNat < 0x20) :
    parseStrBody (fuel + 1) (c :: l) = (parseStrBody fuel l).map (fun p => (c :: p.1, p.2)) := by
  simp only [parseStrBody]
  rw [if_neg h1, if_neg h2, if_neg h3]

/-- Characters that a JSON string scanner passes through verbatim. -/
def plainChar (c : Char) : Bool :=
  !(c == '"') && !(c == '\\') && decide (0x20 ≤ c.toNat)

lemma parseStrBody_plain : ∀ (k : List Char) (fuel : Nat), k.length < fuel →
    (∀ c ∈ k, plainChar c = true) →
    ∀ (r : List Char), parseStrBody fuel (k ++ '"' :: r) = some (k, r) := by
  intro k
  induction k with
  | nil =>
    intro fuel hf _ r
    cases fuel with
    | zero => omega
    | succ f => rw [List.nil_append, parseStrBody_quote]
  | cons c k ih =>
    intro fuel hf h r
    cases fuel with
    | zero => omega
    | succ f =>
      have hc := h c (List.mem_cons_self _ _)
      simp only [plainChar, Bool.and_eq_true, Bool.not_eq_true', beq_eq_false_iff_ne,
        decide_eq_true_eq] at hc
      obtain ⟨⟨hq, hb⟩, hge⟩ := hc
      rw [List.cons_append, parseStrBody_raw f c _ hq hb (by omega),
        ih f (by simpa using Nat.lt_of_succ_lt_succ hf) (fun x hx => h x (List.mem_cons_of_mem _ hx)) r]
      rfl

lemma char_valid_ranges (c : Char) :
    c.toNat < 0xd800 ∨ (0xdfff < c.toNat ∧ c.toNat < 0x110000) := c.valid

lemma uEscape_bmp (t : Nat) (hlt : t < 0x10000) (hval : t < 0xd800 ∨ 0xdfff < t)
    (r : List Char) : uEscape (hex4 t ++ r) = some (Char.ofNat t, r) := by
  simp only [hex4, List.cons_append, List.nil_append, uEscape]
  rw [hex4Val_hex4 t hlt, Option.some_bind, if_neg (by omega), if_neg (by omega)]

lemma uEscape_pair (t : Nat) (h1 : 0x10000 ≤ t) (h2 : t < 0x110000) (r : List Char) :
    uEscape (hex4 (0xd800 + (t - 0x10000) / 0x400) ++
      ('\\' :: 'u' :: (hex4 (0xdc00 + (t - 0x10000) % 0x400) ++ r)))
      = some (Char.ofNat t, r) := by
  have hlow : lowSurrogate ('\\' :: 'u' :: (hex4 (0xdc00 + (t - 0x10000) % 0x400) ++ r))
      = some (0xdc00 + (t - 0x10000) % 0x400, r) := by
    simp only [hex4, List.cons_append, List.nil_append, lowSurrogate]
    rw [if_pos (⟨trivial, trivial⟩ : True ∧ True),
      hex4Val_hex4 _ (by omega), Option.some_bind,
      if_pos (by omega : 0xdc00 ≤ 0xdc00 + (t - 0x10000) % 0x400 ∧
        0xdc00 + (t - 0x10000) % 0x400 < 0xe000)]
  simp only [hex4, List.cons_append, List.nil_append, uEscape]
  rw [hex4Val_hex4 _ (by omega), Option.some_bind,
    if_pos (by omega : 0xd800 ≤ 0xd800 + (t - 0x10000) / 0x400 ∧
      0xd800 + (t - 0x10000) / 0x400 < 0xdc00)]
  rw [show ('\\' :: 'u' ::
      (hexDig ((0xdc00 + (t - 0x10000) % 0x400) / 4096 % 16) ::
        hexDig ((0xdc00 + (t - 0x10000) % 0x400) / 256 % 16) ::
          hexDig ((0xdc00 + (t - 0x10000) % 0x400) / 16 % 16) ::
            hexDig ((0xdc00 + (t - 0x10000) % 0x400) % 16) :: r))
      = ('\\' :: 'u' :: (hex4 (0xdc00 + (t - 0x10000) % 0x400) ++ r)) from by
    simp [hex4]]
  rw [hlow, Option.map_some']
  have harith : 0x10000 + (0xd800 + (t - 0x10000) / 0x400 - 0xd800) * 0x400 +
      (0xdc00 + (t - 0x10000) % 0x400 - 0xdc00) = t := by omega
  rw [harith]

lemma parseStrBody_enc : ∀ (s : List Char) (fuel : Nat), s.length < fuel →
    ∀ (r : List Char), parseStrBody fuel (encStrBody s ++ '"' :: r) = some (s, r) := by
  intro s
  induction s with
  | nil =>
    intro fuel hf r
    cases fuel with
    | zero => omega
    | succ f => rw [encStrBody, List.nil_append, parseStrBody_quote]
  | cons c s ih =>
    intro fuel hf r
    cases fuel with
    | zero => omega
    | succ f =>
      have hf' : s.length < f := by simpa using Nat.lt_of_succ_lt_succ hf
      have hvalid := char_valid_ranges c
      rw [encStrBody, List.append_assoc]
      simp only [encChar]
      split_ifs with h1 h2 h3 h4 h5 h6 h7 h8 h9
      · rw [show (['\\', '"'] : List Char) ++ (encStrBody s ++ '"' :: r)
            = '\\' :: '"' :: (encStrBody s ++ '"' :: r) from rfl,
          parseStrBody_esc f '"' '"' (by decide) (by decide), ih f hf' r]
        rw [h1]
        rfl
      · rw [show (['\\', '\\'] : List Char) ++ (encStrBody s ++ '"' :: r)
            = '\\' :: '\\' :: (encStrBody s ++ '"' :: r) from rfl,
          parseStrBody_esc f '\\' '\\' (by decide) (by decide), ih f hf' r]
        rw [h2]
        rfl
      · rw [show (['\\', 'n'] : List Char) ++ (encStrBody s ++ '"' :: r)
            = '\\' :: 'n' :: (encStrBody s ++ '"' :: r) from rfl,
          parseStrBody_esc f 'n' '\n' (by decide) (by decide), ih f hf' r]
        rw [h3]
        rfl
      · rw [show (['\\', 't'] : List Char) ++ (encStrBody s ++ '"' :: r)
            = '\\' :: 't' :: (encStrBody s ++ '"' :: r) from rfl,
          parseStrBody_esc f 't' '\t' (by decide) (by decide), ih f hf' r]
        rw [h4]
        rfl
      · rw [show (['\\', 'r'] : List Char) ++ (encStrBody s ++ '"' :: r)
            = '\\' :: 'r' :: (encStrBody s ++ '"' :: r) from rfl,
          parseStrBody_esc f 'r' '\r' (by decide) (by decide), ih f hf' r]
        rw [h5]
        rfl
      · rw [show (['\\', 'b'] : List Char) ++ (encStrBody s ++ '"' :: r)
            = '\\' :: 'b' :: (encStrBody s ++ '"' :: r) from rfl,
          parseStrBody_esc f 'b' '\x08' (by decide) (by decide), ih f hf' r]
        rw [h6]
        rfl
      · rw [show (['\\', 'f'] : List Char) ++ (encStrBody s ++ '"' :: r)
            = '\\' :: 'f' :: (encStrBody s ++ '"' :: r) from rfl,
          parseStrBody_esc f 'f' '\x0c' (by decide) (by decide), ih f hf' r]
        rw [h7]
        rfl
      · -- basic-plane `\uXXXX`
        rw [show ('\\' :: 'u' :: hex4 c.toNat) ++ (encStrBody s ++ '"' :: r)
            = '\\' :: 'u' :: (hex4 c.toNat ++ (encStrBody s ++ '"' :: r)) from by
          simp [List.cons_append]]
        rw [parseStrBody_u f, uEscape_bmp c.toNat h9 (by omega)]
        simp only [Option.some_bind]
        rw [ih f hf' r]
        simp [Char.ofNat_toNat]
      · -- astral character: surrogate pair
        rw [show ('\\' :: 'u' :: hex4 (0xd800 + (c.toNat - 0x10000) / 0x400) ++
              '\\' :: 'u' :: hex4 (0xdc00 + (c.toNat - 0x10000) % 0x400))
              ++ (encStrBody s ++ '"' :: r)
            = '\\' :: 'u' :: (hex4 (0xd800 + (c.toNat - 0x10000) / 0x400) ++
              ('\\' :: 'u' :: (hex4 (0xdc00 + (c.toNat - 0x10000) % 0x400) ++
                (encStrBody s ++ '"' :: r)))) from by
          simp [List.cons_append, List.append_assoc]]
        rw [parseStrBody_u f, uEscape_pair c.toNat (by omega) (by omega)]
        simp only [Option.some_bind]
        rw [ih f hf' r]
        simp [Char.ofNat_toNat]
      · -- plain printable character
        rw [List.singleton_append, parseStrBody_raw f c _ h1 h2 (by omega), ih f hf' r]
        rfl

/-! ## Round-trip lemmas: JSON values and members -/

lemma skipWs_chunk2 (ind : Nat) (l : List Char) :
    skipWs ('\n' :: (sp ind ++ l)) = skipWs l := by
  rw [skipWs_cons_ws '\n' rfl, skipWs_sp]

lemma parseVal_ws_chunk (fuel ind : Nat) (l : List Char) :
    parseVal fuel ('\n' :: (sp ind ++ l)) = parseVal fuel l :=
  parseVal_congr (skipWs_chunk ind l) fuel

lemma parseVal_space (fuel : Nat) (l : List Char) :
    parseVal fuel (' ' :: l) = parseVal fuel l :=
  parseVal_congr (skipWs_cons_ws ' ' rfl l) fuel

lemma parseMembers_ws_chunk (fuel ind : Nat) (l : List Char) :
    parseMembers fuel ('\n' :: (sp ind ++ l)) = parseMembers fuel l :=
  parseMembers_congr (skipWs_chunk ind l) fuel

lemma parseElems_ws_chunk (fuel ind : Nat) (l : List Char) :
    parseElems fuel ('\n' :: (sp ind ++ l)) = parseElems fuel l :=
  parseElems_congr (skipWs_chunk ind l) fuel

lemma encStrBody_length (s : List Char) : s.length ≤ (encStrBody s).length := by
  induction s with
  | nil => simp [encStrBody]
  | cons c s ih =>
    have hpos : 0 < (encChar c).length := by
      simp only [encChar]
      split_ifs <;> simp [hex4]
    rw [encStrBody, List.length_append, List.length_cons]
    omega

lemma parseVal_str (fuel : Nat) (s r : List Char) :
    parseVal (fuel + 1) ('"' :: (encStrBody s ++ '"' :: r)) = some (.str s, r) := by
  simp only [parseVal, skipWs_cons_not '"' rfl]
  have hb : s.length < (encStrBody s ++ '"' :: r).length + 1 := by
    rw [List.length_append]
    have := encStrBody_length s
    omega
  rw [parseStrBody_enc s _ hb r]
  rfl

lemma parseVal_num_head (fuel : Nat) (c : Char) (l : List Char) (hws : jsonWs c = false)
    (h1 : ¬c = '\x7b') (h2 : ¬c = '[') (h3 : ¬c = '"') (h4 : ¬c = 't') (h5 : ¬c = 'f')
    (h6 : ¬c = 'n') :
    parseVal (fuel + 1) (c :: l) = (parseNumber (c :: l)).map (fun p => (.num p.1, p.2)) := by
  simp only [parseVal, skipWs_cons_not c hws]
  rw [if_neg h1, if_neg h2, if_neg h3, if_neg h4, if_neg h5, if_neg h6]

lemma parseVal_int (fuel : Nat) (n : Int) (r : List Char) (hr : numBoundary r = true) :
    parseVal (fuel + 1) (printInt n ++ r) = some (.num n, r) := by
  have hnum := parseNumber_printInt n r hr
  obtain ⟨c, cs, hcons, hc⟩ : ∃ c cs, printInt n = c :: cs ∧
      (c = '-' ∨ ∃ d, d < 10 ∧ c = digChar d) := by
    by_cases h : n < 0
    · exact ⟨'-', printNat (-n).toNat, by rw [printInt, if_pos h], Or.inl rfl⟩
    · obtain ⟨d, ds, hshape, hd, _⟩ := printNat_shape n.toNat
      exact ⟨digChar d, ds, by rw [printInt, if_neg h, hshape], Or.inr ⟨d, hd, rfl⟩⟩
  have hws : jsonWs c = false := by
    rcases hc with rfl | ⟨d, hd, rfl⟩
    · rfl
    · exact (digChar_facts d hd).2.1
  have h1 : ¬c = '\x7b' := by
    rcases hc with rfl | ⟨d, hd, rfl⟩
    · decide
    · exact (digChar_facts d hd).2.2.2.1
  have h2 : ¬c = '[' := by
    rcases hc with rfl | ⟨d, hd, rfl⟩
    · decide
    · exact (digChar_facts d hd).2.2.2.2.1
  have h3 : ¬c = '"' := by
    rcases hc with rfl | ⟨d, hd, rfl⟩
    · decide
    · exact (digChar_facts d hd).2.2.2.2.2.1
  have h4 : ¬c = 't' := by
    rcases hc with rfl | ⟨d, hd, rfl⟩
    · decide
    · exact (digChar_facts d hd).2.2.2.2.2.2.1
  have h5 : ¬c = 'f' := by
    rcases hc with rfl | ⟨d, hd, rfl⟩
    · decide
    · exact (digChar_facts d hd).2.2.2.2.2.2.2.1
  have h6 : ¬c = 'n' := by
    rcases hc with rfl | ⟨d, hd, rfl⟩
    · decide
    · exact (digChar_facts d hd).2.2.2.2.2.2.2.2.1
  rw [hcons, List.cons_append, parseVal_num_head fuel c _ hws h1 h2 h3 h4 h5 h6,
    ← List.cons_append, ← hcons, hnum]
  rfl

lemma parseVal_bool (fuel : Nat) (b : Bool) (r : List Char) :
    parseVal (fuel + 1) (printBool b ++ r) = some (.bool b, r) := by
  cases b <;> rfl

lemma parseMembers_kv (fuel : Nat) (k : List Char) (hk : ∀ c ∈ k, plainChar c = true)
    (v : List Char) :
    parseMembers (fuel + 1) ('"' :: (k ++ '"' :: ':' :: ' ' :: v))
      = (parseVal fuel (' ' :: v)).bind (fun pv =>
          match skipWs pv.2 with
          | [] => none
          | c4 :: r4 =>
            if c4 = ',' then (parseMembers fuel r4).map (fun p => ((k, pv.1) :: p.1, p.2))
            else if c4 = '\x7d' then some ([(k, pv.1)], r4)
            else none) := by
  have h := parseStrBody_plain k ((k ++ '"' :: ':' :: ' ' :: v).length + 1)
    (by rw [List.length_append]; omega) hk (':' :: ' ' :: v)
  simp only [parseMembers, skipWs_cons_not '"' rfl, h, Option.some_bind,
    skipWs_cons_not ':' rfl]
  rw [if_pos trivial, if_pos trivial]

lemma parseMembers_val_int (f : Nat) (k : List Char) (hk : ∀ c ∈ k, plainChar c = true)
    (n : Int) (rest : List Char) :
    parseMembers (f + 2) ('"' :: (k ++ '"' :: ':' :: ' ' :: (printInt n ++ (',' :: rest))))
      = (parseMembers (f + 1) rest).map (fun p => ((k, .num n) :: p.1, p.2)) := by
  rw [show f + 2 = (f + 1) + 1 from rfl, parseMembers_kv (f + 1) k hk _,
    parseVal_space (f + 1), parseVal_int f n (',' :: rest) rfl]
  rfl

lemma parseMembers_val_str (f : Nat) (k : List Char) (hk : ∀ c ∈ k, plainChar c = true)
    (s : List Char) (rest : List Char) :
    parseMembers (f + 2)
        ('"' :: (k ++ '"' :: ':' :: ' ' :: ('"' :: (encStrBody s ++ '"' :: ',' :: rest))))
      = (parseMembers (f + 1) rest).map (fun p => ((k, .str s) :: p.1, p.2)) := by
  rw [show f + 2 = (f + 1) + 1 from rfl, parseMembers_kv (f + 1) k hk _,
    parseVal_space (f + 1), parseVal_str f s (',' :: rest)]
  rfl

lemma parseMembers_val_bool_last (f : Nat) (k : List Char) (hk : ∀ c ∈ k, plainChar c = true)
    (b : Bool) (j : Nat) (rest : List Char) :
    parseMembers (f + 2)
        ('"' :: (k ++ '"' :: ':' :: ' ' :: (printBool b ++ ('\n' :: (sp j ++ ('\x7d' :: rest))))))
      = some ([(k, .bool b)], rest) := by
  rw [show f + 2 = (f + 1) + 1 from rfl, parseMembers_kv (f + 1) k hk _,
    parseVal_space (f + 1), parseVal_bool f b _]
  simp only [Option.some_bind]
  rw [skipWs_chunk j, skipWs_cons_not '\x7d' rfl]
  rfl

/-! ## Round-trip lemmas: one printed submission parses back -/

/-- The JSON value a submission serialises to. -/
def subJson (s : Submission) : Json :=
  .obj [(kIssueNumber, .num s.issue_number),
        (kStudentName, .str s.student_name.data),
        (kModelLength, .str s.model_length.data),
        (kAccuracy, .str s.accuracy.data),
        (kTensorboardLink, .str s.tensorboard_link.data),
        (kImprovementDescription, .str s.improvement_description.data),
        (kGpuHours, .str s.gpu_hours.data),
        (kIssueUrl, .str s.issue_url.data),
        (kSubmittedAt, .str s.submitted_at.data),
        (kVerified, .bool s.verified)]

/-- The JSON value a whole store serialises to. -/
def storeJson (ss : List Submission) : Json :=
  .obj [(kSubmissions, .arr (ss.map subJson))]

lemma memInt_append (i : Nat) (k : List Char) (n : Int) (rest r : List Char) :
    memInt i k n rest ++ r = memInt i k n (rest ++ r) := by
  simp [memInt, List.append_assoc]

lemma memStr_append (i : Nat) (k s rest r : List Char) :
    memStr i k s rest ++ r = memStr i k s (rest ++ r) := by
  simp [memStr, List.append_assoc]

lemma memBool_append (i : Nat) (k : List Char) (b : Bool) (rest r : List Char) :
    memBool i k b rest ++ r = memBool i k b (rest ++ r) := by
  simp [memBool, List.append_assoc]

lemma skipWs_memInt (i : Nat) (k : List Char) (n : Int) (rest : List Char) :
    skipWs (memInt i k n rest)
      = '"' :: (k ++ ('"' :: ':' :: ' ' :: (printInt n ++ rest))) := by
  simp only [memInt, skipWs_chunk, skipWs_cons_not '"' rfl]

lemma parseMembers_memStr_ws (fuel i : Nat) (k s rest : List Char) :
    parseMembers fuel (memStr i k s rest)
      = parseMembers fuel
          ('"' :: (k ++ ('"' :: ':' :: ' ' :: ('"' :: (encStrBody s ++ ('"' :: rest)))))) := by
  rw [memStr]
  exact parseMembers_ws_chunk fuel i _

lemma parseMembers_memBool_ws (fuel i : Nat) (k : List Char) (b : Bool) (rest : List Char) :
    parseMembers fuel (memBool i k b rest)
      = parseMembers fuel ('"' :: (k ++ ('"' :: ':' :: ' ' :: (printBool b ++ rest)))) := by
  rw [memBool]
  exact parseMembers_ws_chunk fuel i _

lemma parseVal_obj_members (f : Nat) (l t : List Char) (h : skipWs l = '"' :: t) :
    parseVal (f + 1) ('\x7b' :: l)
      = (parseMembers f ('"' :: t)).map (fun p => (Json.obj p.1, p.2)) := by
  have hstep : parseVal (f + 1) ('\x7b' :: l)
      = match skipWs l with
        | [] => none
        | c2 :: r2 =>
          if c2 = '\x7d' then some (Json.obj [], r2)
          else (parseMembers f (c2 :: r2)).map (fun p => (Json.obj p.1, p.2)) := rfl
  rw [hstep, h]
  rfl

lemma parseVal_arr_elems (f : Nat) (l t : List Char) (h : skipWs l = '\x7b' :: t) :
    parseVal (f + 1) ('[' :: l)
      = (parseElems f ('\x7b' :: t)).map (fun p => (Json.arr p.1, p.2)) := by
  have hstep : parseVal (f + 1) ('[' :: l)
      = match skipWs l with
        | [] => none
        | c2 :: r2 =>
          if c2 = ']' then some (Json.arr [], r2)
          else (parseElems f (c2 :: r2)).map (fun p => (Json.arr p.1, p.2)) := rfl
  rw [hstep, h]
  rfl

lemma parseVal_printSub (fuel ind : Nat) (s : Submission) (r : List Char) :
    parseVal (fuel + 12) (printSub ind s ++ r) = some (subJson s, r) := by
  have hps : printSub ind s ++ r
      = '\x7b' :: memInt (ind + 2) kIssueNumber s.issue_number (',' ::
          memStr (ind + 2) kStudentName s.student_name.data (',' ::
          memStr (ind + 2) kModelLength s.model_length.data (',' ::
          memStr (ind + 2) kAccuracy s.accuracy.data (',' ::
          memStr (ind + 2) kTensorboardLink s.tensorboard_link.data (',' ::
          memStr (ind + 2) kImprovementDescription s.improvement_description.data (',' ::
          memStr (ind + 2) kGpuHours s.gpu_hours.data (',' ::
          memStr (ind + 2) kIssueUrl s.issue_url.data (',' ::
          memStr (ind + 2) kSubmittedAt s.submitted_at.data (',' ::
          memBool (ind + 2) kVerified s.verified
            ('\n' :: (sp ind ++ ('\x7d' :: r)))))))))))) := by
    simp [printSub, memInt_append, memStr_append, memBool_append, List.append_assoc]
  rw [hps, show fuel + 12 = (fuel + 11) + 1 from rfl,
    parseVal_obj_members (fuel + 11) _ _ (skipWs_memInt (ind + 2) kIssueNumber _ _),
    show fuel + 11 = (fuel + 9) + 2 from rfl,
    parseMembers_val_int (fuel + 9) kIssueNumber (by decide) s.issue_number _,
    parseMembers_memStr_ws (fuel + 9 + 1) (ind + 2),
    show fuel + 9 + 1 = (fuel + 8) + 2 from rfl,
    parseMembers_val_str (fuel + 8) kStudentName (by decide) s.student_name.data _,
    parseMembers_memStr_ws (fuel + 8 + 1) (ind + 2),
    show fuel + 8 + 1 = (fuel + 7) + 2 from rfl,
    parseMembers_val_str (fuel + 7) kModelLength (by decide) s.model_length.data _,
    parseMembers_memStr_ws (fuel + 7 + 1) (ind + 2),
    show fuel + 7 + 1 = (fuel + 6) + 2 from rfl,
    parseMembers_val_str (fuel + 6) kAccuracy (by decide) s.accuracy.data _,
    parseMembers_memStr_ws (fuel + 6 + 1) (ind + 2),
    show fuel + 6 + 1 = (fuel + 5) + 2 from rfl,
    parseMembers_val_str (fuel + 5) kTensorboardLink (by decide) s.tensorboard_link.data _,
    parseMembers_memStr_ws (fuel + 5 + 1) (ind + 2),
    show fuel + 5 + 1 = (fuel + 4) + 2 from rfl,
    parseMembers_val_str (fuel + 4) kImprovementDescription (by decide)
      s.improvement_description.data _,
    parseMembers_memStr_ws (fuel + 4 + 1) (ind + 2),
    show fuel + 4 + 1 = (fuel + 3) + 2 from rfl,
    parseMembers_val_str (fuel + 3) kGpuHours (by decide) s.gpu_hours.data _,
    parseMembers_memStr_ws (fuel + 3 + 1) (ind + 2),
    show fuel + 3 + 1 = (fuel + 2) + 2 from rfl,
    parseMembers_val_str (fuel + 2) kIssueUrl (by decide) s.issue_url.data _,
    parseMembers_memStr_ws (fuel + 2 + 1) (ind + 2),
    show fuel + 2 + 1 = (fuel + 1) + 2 from rfl,
    parseMembers_val_str (fuel + 1) kSubmittedAt (by decide) s.submitted_at.data _,
    parseMembers_memBool_ws (fuel + 1 + 1) (ind + 2),
    show fuel + 1 + 1 = fuel + 2 from rfl,
    parseMembers_val_bool_last fuel kVerified (by decide) s.verified ind r]
  simp only [Option.map_some']
  rfl

/-! ## Round-trip lemmas: the whole store -/

lemma parseElems_step (f : Nat) (l : List Char) :
    parseElems (f + 1) l
      = (parseVal f l).bind (fun pv =>
          match skipWs pv.2 with
          | [] => none
          | c :: r1 =>
            if c = ',' then (parseElems f r1).map (fun p => (pv.1 :: p.1, p.2))
            else if c = ']' then some ([pv.1], r1)
            else none) := rfl

lemma parseVal_arr_step (f : Nat) (l : List Char) :
    parseVal (f + 1) ('[' :: l)
      = match skipWs l with
        | [] => none
        | c2 :: r2 =>
          if c2 = ']' then some (Json.arr [], r2)
          else (parseElems f (c2 :: r2)).map (fun p => (Json.arr p.1, p.2)) := rfl

lemma parseElems_items (ss : List Submission) :
    ∀ (s0 : Submission) (fuel : Nat) (r : List Char),
      parseElems (fuel + ss.length + 13) (printItems (s0 :: ss) ++ r)
        = some ((s0 :: ss).map subJson, r) := by
  induction ss with
  | nil =>
    intro s0 fuel r
    show parseElems ((fuel + 12) + 1) (printItems [s0] ++ r) = some ([subJson s0], r)
    rw [parseElems_step (fuel + 12),
      show printItems [s0] ++ r = printSub 4 s0 ++ ('\n' :: (sp 2 ++ (']' :: r))) from by
        simp [printItems, List.append_assoc],
      parseVal_printSub fuel 4 s0 _]
    simp only [Option.some_bind]
    rw [skipWs_chunk 2, skipWs_cons_not ']' rfl]
    rfl
  | cons s2 ss2 ih =>
    intro s0 fuel r
    show parseElems ((fuel + ss2.length + 13) + 1) (printItems (s0 :: s2 :: ss2) ++ r)
      = some (subJson s0 :: (s2 :: ss2).map subJson, r)
    rw [parseElems_step (fuel + ss2.length + 13),
      show printItems (s0 :: s2 :: ss2) ++ r
          = printSub 4 s0 ++ (',' :: '\n' :: (sp 4 ++ (printItems (s2 :: ss2) ++ r))) from by
        simp [printItems, List.append_assoc],
      show fuel + ss2.length + 13 = (fuel + ss2.length + 1) + 12 from rfl,
      parseVal_printSub (fuel + ss2.length + 1) 4 s0 _]
    simp only [Option.some_bind]
    rw [skipWs_cons_not ',' rfl]
    show (parseElems ((fuel + ss2.length + 1) + 12)
          ('\n' :: (sp 4 ++ (printItems (s2 :: ss2) ++ r)))).map
          (fun p => (subJson s0 :: p.1, p.2))
        = some (subJson s0 :: (s2 :: ss2).map subJson, r)
    rw [parseElems_ws_chunk _ 4,
      show (fuel + ss2.length + 1) + 12 = fuel + ss2.length + 13 from rfl,
      ih s2 fuel r]
    rfl

lemma parseVal_printArr (fuel : Nat) (ss : List Submission) (r : List Char) :
    parseVal (fuel + ss.length + 14) (printArr ss ++ r)
      = some (.arr (ss.map subJson), r) := by
  cases ss with
  | nil =>
    show parseVal ((fuel + 13) + 1) ('[' :: (']' :: r)) = some (Json.arr [], r)
    rw [parseVal_arr_step (fuel + 13), skipWs_cons_not ']' rfl]
    rfl
  | cons s0 ss0 =>
    show parseVal ((fuel + ss0.length + 14) + 1)
        ('[' :: ('\n' :: (sp 4 ++ (printItems (s0 :: ss0) ++ r))))
      = some (Json.arr ((s0 :: ss0).map subJson), r)
    obtain ⟨t, ht⟩ : ∃ t, printItems (s0 :: ss0) ++ r = '\x7b' :: t := by
      cases ss0 with
      | nil => exact ⟨_, rfl⟩
      | cons s1 ss1 => exact ⟨_, rfl⟩
    have hws : skipWs ('\n' :: (sp 4 ++ (printItems (s0 :: ss0) ++ r))) = '\x7b' :: t := by
      rw [skipWs_chunk 4, ht, skipWs_cons_not '\x7b' rfl]
    rw [parseVal_arr_elems (fuel + ss0.length + 14) _ t hws, ← ht,
      show fuel + ss0.length + 14 = (fuel + 1) + ss0.length + 13 from by omega,
      parseElems_items ss0 s0 (fuel + 1) r]
    rfl

lemma parseVal_printStore (fuel : Nat) (ss : List Submission) :
    parseVal (fuel + ss.length + 17) (printStore ss) = some (storeJson ss, []) := by
  show parseVal ((fuel + ss.length + 16) + 1)
      ('\x7b' :: ('\n' :: (sp 2 ++ ('"' :: (kSubmissions ++
        ('"' :: ':' :: ' ' :: (printArr ss ++ ('\n' :: ['\x7d']))))))))
    = some (storeJson ss, [])
  rw [parseVal_obj_members (fuel + ss.length + 16) _ _
      (show skipWs ('\n' :: (sp 2 ++ ('"' :: (kSubmissions ++
          ('"' :: ':' :: ' ' :: (printArr ss ++ ('\n' :: ['\x7d'])))))))
          = '"' :: (kSubmissions ++ ('"' :: ':' :: ' ' ::
            (printArr ss ++ ('\n' :: ['\x7d'])))) from by
        rw [skipWs_chunk 2, skipWs_cons_not '"' rfl]),
    show fuel + ss.length + 16 = (fuel + ss.length + 15) + 1 from rfl,
    parseMembers_kv (fuel + ss.length + 15) kSubmissions (by decide) _,
    parseVal_space (fuel + ss.length + 15),
    show fuel + ss.length + 15 = (fuel + 1) + ss.length + 14 from by omega,
    parseVal_printArr (fuel + 1) ss ('\n' :: ['\x7d'])]
  simp only [Option.some_bind]
  rfl

lemma printItems_length_ge (ss : List Submission) : ss.length ≤ (printItems ss).length := by
  induction ss with
  | nil => simp [printItems]
  | cons s ss ih =>
    cases ss with
    | nil => simp [printItems, printSub]
    | cons s2 ss2 =>
      have h : printItems (s :: s2 :: ss2)
          = printSub 4 s ++ (',' :: '\n' :: (sp 4 ++ printItems (s2 :: ss2))) := rfl
      rw [h]
      simp only [List.length_append, List.length_cons, List.length_replicate, sp]
      simp only [List.length_cons] at ih ⊢
      omega

lemma printStore_length_lb (ss : List Submission) :
    ss.length + 16 ≤ (printStore ss).length := by
  cases ss with
  | nil => decide
  | cons s ss0 =>
    have h1 := printItems_length_ge (s :: ss0)
    have hk : kSubmissions.length = 11 := rfl
    simp only [printStore, printArr, List.length_cons, List.length_append,
      List.length_replicate, sp, hk, List.length_cons] at h1 ⊢
    omega

lemma parseJsonDoc_printStore (ss : List Submission) :
    parseJsonDoc (printStore ss) = some (storeJson ss) := by
  rw [parseJsonDoc,
    show (printStore ss).length + 1
        = ((printStore ss).length - (ss.length + 16)) + ss.length + 17 from by
      have := printStore_length_lb ss
      omega,
    parseVal_printStore _ ss]
  rfl

lemma subOfJson_subJson (s : Submission) : subOfJson (subJson s) = some s := rfl

lemma mapM_subOfJson (ss : List Submission) : (ss.map subJson).mapM subOfJson = some ss := by
  induction ss with
  | nil => rfl
  | cons s ss ih =>
    rw [List.map_cons, List.mapM_cons, subOfJson_subJson, ih]
    rfl

lemma storeOfJson_storeJson (ss : List Submission) :
    storeOfJson (storeJson ss) = some ss := by
  show (ss.map subJson).mapM subOfJson = some ss
  exact mapM_subOfJson ss

lemma parseStore_printStore (ss : List Submission) :
    parseStore (printStore ss) = some ss := by
  show (parseJsonDoc (printStore ss)).bind storeOfJson = some ss
  rw [parseJsonDoc_printStore ss, Option.some_bind]
  exact storeOfJson_storeJson ss

/-- C8: saving a store and loading it back is a round trip: the loaded
list of submissions is field-for-field identical to, and in the same
order as, the list that was saved. -/
theorem c8_save_load_round_trip (subs : List Submission) :
    load_leaderboard (save_leaderboard subs) = .ok subs := by
  show (match parseStore (printStore subs) with
        | some s => (Except.ok s : Except String (List Submission))
        | none => Except.error "json.load failed")
      = Except.ok subs
  rw [parseStore_printStore subs]
